import Mathlib

/-!
Verification of the `rust-jmdict` compiled-dictionary codec against its
natural-language specification.

The development shallowly embeds the relevant Rust source files:

* `jmdict-enums/build.rs` — the data-driven enum registry (variant tables with
  build-configured enabled subsets, and the generated `from_code`, `to_u32`,
  `from_u32`, `TryFrom` narrowing and `From` widening conversions);
* `jmdict-traverse/src/lib.rs` — the record normalizer (`RawEntry::from_obj`
  and friends, `parse_prio`, `merge_cprio`, `parse_freq_bucket`,
  `process_dictionary`);
* `build.rs` — the payload encoder (`OmniBuffer`, `push_str`, `push_data`,
  `push_array`, the `ToPayload` impls);
* `src/payload.rs` — the zero-copy reader (`get_entry`, the `FromPayload`
  impls, `Range` iteration).

Machine integers (`u32`, `usize`) are modelled as `Nat`; the theorems carry the
size hypotheses under which the Rust `u32` arithmetic does not overflow, so the
`Nat` model agrees with the machine semantics.  A Rust `panic!` is modelled as
`Except.error` (or `Option.none` for `parse_prio`): a panic aborts the whole
build, producing no output.  Rust byte strings are modelled as `String` /
`List Char`: the text pool is only ever appended to and sliced at recorded
boundaries, so the unit of offset (byte vs. character) is immaterial to every
claim proved here.
-/

namespace JM

/-! ## Bitwise toolkit

Small facts about `Nat.lor`, `Nat.land`, `Nat.shiftLeft`, `Nat.shiftRight`
used to verify the bit-packing in `build.rs` / `payload.rs`. -/

theorem and_lor_dist (x y z : Nat) : (x ||| y) &&& z = (x &&& z) ||| (y &&& z) := by
  apply Nat.eq_of_testBit_eq
  intro i
  simp [Nat.testBit_and, Nat.testBit_or, Bool.and_or_distrib_right]

theorem shiftRight_lor_dist (x y k : Nat) : (x ||| y) >>> k = (x >>> k) ||| (y >>> k) := by
  apply Nat.eq_of_testBit_eq
  intro i
  simp [Nat.testBit_shiftRight, Nat.testBit_or]

theorem and_shift_mask (x m k : Nat) : x &&& (m <<< k) = ((x >>> k) &&& m) <<< k := by
  apply Nat.eq_of_testBit_eq
  intro i
  simp only [Nat.testBit_and, Nat.testBit_shiftLeft, Nat.testBit_shiftRight]
  rcases Nat.lt_or_ge i k with hik | hik
  · simp [Nat.not_le.mpr hik]
  · simp [hik, Nat.add_sub_cancel' hik]

theorem shiftLeft_shiftRight_cancel (m k : Nat) : m <<< k >>> k = m := by
  rw [Nat.shiftLeft_eq, Nat.shiftRight_eq_div_pow]
  exact Nat.mul_div_cancel m (Nat.pos_pow_of_pos k (by norm_num))

theorem shiftRight_eq_zero (x k : Nat) (h : x < 2 ^ k) : x >>> k = 0 := by
  rw [Nat.shiftRight_eq_div_pow]
  exact Nat.div_eq_of_lt h

theorem and_low_mask (x k : Nat) : x &&& (2 ^ k - 1) = x % 2 ^ k :=
  Nat.and_pow_two_sub_one_eq_mod x k

theorem and_high_mask_eq_zero (x m k : Nat) (h : x < 2 ^ k) : x &&& (m <<< k) = 0 := by
  rw [and_shift_mask, shiftRight_eq_zero x k h, Nat.zero_and, Nat.zero_shiftLeft]

theorem shiftLeft_and_low_mask (b k : Nat) : (b <<< k) &&& (2 ^ k - 1) = 0 := by
  rw [Nat.shiftLeft_eq, and_low_mask, Nat.mul_mod_left]

/-- Unpacking the low field of a word `a ||| (b <<< k)` with `a < 2 ^ k`. -/
theorem unpack_low (a b k : Nat) (h : a < 2 ^ k) : (a ||| (b <<< k)) &&& (2 ^ k - 1) = a := by
  rw [and_lor_dist, and_low_mask a k, Nat.mod_eq_of_lt h, shiftLeft_and_low_mask b k, Nat.or_zero]

/-- Unpacking the high field of a word `a ||| (b <<< k)` with `a < 2 ^ k`. -/
theorem unpack_high (a b k : Nat) (h : a < 2 ^ k) : (a ||| (b <<< k)) >>> k = b := by
  rw [shiftRight_lor_dist, shiftRight_eq_zero a k h, Nat.zero_or, shiftLeft_shiftRight_cancel]

/-! ## Enum registry (`jmdict-enums/build.rs`)

`jmdict-enums/build.rs` drives code generation from per-domain tables of
`EnumVariant { code, name, enabled }`.  For each domain it emits an enum whose
constructors are exactly the *enabled* variants in table order, so a value of
the generated enum is faithfully represented by its index into the filtered
table (which is also its `to_u32` ordinal).  When `all_name` is set it
additionally emits a fully-populated twin enum (every variant enabled), a
fallible `TryFrom` narrowing and a total `From` widening between the two. -/

structure EnumVariant where
  code : String
  name : String
  enabled : Bool
deriving DecidableEq, Repr

/-- The table of the fully-populated twin enum (`process` recursion with
`enabled: true` for every variant, build.rs line 386). -/
def allOf (vs : List EnumVariant) : List EnumVariant :=
  vs.map fun v => { v with enabled := true }

/-- Number of constructors of the generated (restricted) enum. -/
def numEnabled (vs : List EnumVariant) : Nat :=
  vs.countP fun v => v.enabled

/-- Generated `Enum::from_code`: one match arm per *enabled* variant in table
order, mapping its code to the constructor; the constructor is represented by
its ordinal (= index among enabled variants).  Falls through to `None`. -/
def fromCodeAux : List EnumVariant → String → Nat → Option Nat
  | [], _, _ => none
  | v :: rest, c, k =>
    if v.enabled then
      if v.code = c then some k else fromCodeAux rest c (k + 1)
    else
      fromCodeAux rest c k

def from_code (vs : List EnumVariant) (c : String) : Option Nat :=
  fromCodeAux vs c 0

/-- Generated `EnumPayload::to_u32`: the match sends the `i`-th enabled variant
to `i`; on the ordinal representation it is the identity. -/
def to_u32 (v : Nat) : Nat := v

/-- Generated `EnumPayload::from_u32`: match arms `0 .. numEnabled-1`, with a
catch-all `panic!("unknown ... code")` branch (modelled as `none`). -/
def from_u32 (m : Nat) (code : Nat) : Option Nat :=
  if code < m then some code else none

/-- The typed error of the narrowing conversion (`jmdict_enums::DisabledVariant`). -/
inductive DisabledVariant where
  | mk
deriving DecidableEq, Repr

/-- Rank of full-domain ordinal `i` among the enabled variants: the number of
enabled variants strictly before it.  For an enabled variant this is its
ordinal in the restricted enum. -/
def rankEnabled (vs : List EnumVariant) (i : Nat) : Nat :=
  (vs.take i).countP fun v => v.enabled

/-- Generated `TryFrom<AllFoo> for Foo`: one arm per variant in table order;
enabled variants map to `Ok` of the corresponding restricted constructor,
disabled ones to `Err(DisabledVariant)`.  The full-domain value is represented
by its index `i` into the full table. -/
def try_from_all (vs : List EnumVariant) (i : Nat) : Except DisabledVariant Nat :=
  match vs.get? i with
  | some v => if v.enabled then .ok (rankEnabled vs i) else .error .mk
  | none => .error .mk

/-- Generated `From<Foo> for AllFoo`: the `k`-th restricted constructor maps to
the variant it came from, i.e. to the full-table index of the `k`-th enabled
variant. -/
def widenIdx : List EnumVariant → Nat → Nat
  | [], _ => 0
  | v :: rest, k =>
    if v.enabled then
      match k with
      | 0 => 0
      | k' + 1 => widenIdx rest k' + 1
    else
      widenIdx rest k + 1

theorem widenIdx_spec (vs : List EnumVariant) (k : Nat) (hk : k < numEnabled vs) :
    ∃ h : widenIdx vs k < vs.length,
      (vs.get ⟨widenIdx vs k, h⟩).enabled = true ∧ rankEnabled vs (widenIdx vs k) = k := by
  induction vs generalizing k with
  | nil => simp [numEnabled] at hk
  | cons v rest ih =>
    by_cases hv : v.enabled
    · cases k with
      | zero =>
        refine ⟨by simp [widenIdx, hv], ?_, ?_⟩ <;> simp [widenIdx, hv, rankEnabled]
      | succ k' =>
        have hk' : k' < numEnabled rest := by
          have : numEnabled (v :: rest) = numEnabled rest + 1 := by
            simp [numEnabled, List.countP_cons, hv]
          omega
        obtain ⟨hlt, hen, hrank⟩ := ih k' hk'
        refine ⟨?_, ?_, ?_⟩
        · simp [widenIdx, hv, Nat.succ_lt_succ hlt]
        · simpa [widenIdx, hv] using hen
        · simp only [widenIdx, hv, if_true, rankEnabled, List.take_succ_cons,
            List.countP_cons]
          simp only [rankEnabled] at hrank
          simp [hrank, hv]
    · have hk' : k < numEnabled rest := by
        have : numEnabled (v :: rest) = numEnabled rest := by
          simp [numEnabled, List.countP_cons, hv]
        omega
      obtain ⟨hlt, hen, hrank⟩ := ih k hk'
      refine ⟨?_, ?_, ?_⟩
      · simp [widenIdx, hv, Nat.succ_lt_succ hlt]
      · simpa [widenIdx, hv] using hen
      · simp only [widenIdx, hv, if_false, rankEnabled, List.take_succ_cons,
          List.countP_cons]
        simp only [rankEnabled] at hrank
        simp [hrank, hv]

theorem rankEnabled_lt (vs : List EnumVariant) (i : Nat) (h : i < vs.length)
    (he : (vs.get ⟨i, h⟩).enabled = true) : rankEnabled vs i < numEnabled vs := by
  induction vs generalizing i with
  | nil => simp at h
  | cons v rest ih =>
    cases i with
    | zero =>
      simp at he
      simp [rankEnabled, numEnabled, List.countP_cons, he]
    | succ i' =>
      have h' : i' < rest.length := Nat.lt_of_succ_lt_succ h
      have he' : (rest.get ⟨i', h'⟩).enabled = true := by simpa using he
      have hih := ih i' h' he'
      simp only [rankEnabled, numEnabled, List.take_succ_cons, List.countP_cons] at *
      by_cases hv : v.enabled <;> simp [hv] <;> omega

/-- Shorthand mirroring build.rs `v(code, name)`: an enabled variant. -/
def v (c n : String) : EnumVariant := ⟨c, n, true⟩

/-- Shorthand mirroring build.rs `v(code, name).when(flag)`. -/
def vw (c n : String) (b : Bool) : EnumVariant := ⟨c, n, b⟩

/-- The set of `translations-XXX` cargo features (which `GlossLanguage`
variants are enabled). -/
structure TransConfig where
  eng : Bool
  dut : Bool
  fre : Bool
  ger : Bool
  hun : Bool
  rus : Bool
  slv : Bool
  spa : Bool
  swe : Bool
deriving DecidableEq, Repr

/-- The crate's `default` feature set: English only. -/
def defaultTrans : TransConfig := ⟨true, false, false, false, false, false, false, false, false⟩

def dialectVariants : List EnumVariant :=
  [v "bra" "Brazilian", v "hob" "Hokkaido", v "ksb" "Kansai", v "ktb" "Kantou",
   v "kyb" "Kyoto", v "kyu" "Kyuushuu", v "nab" "Nagano", v "osb" "Osaka",
   v "rkb" "Ryuukyuu", v "thb" "Touhoku", v "tsb" "Tosa", v "tsug" "Tsugaru"]

def glossLanguageVariants (t : TransConfig) : List EnumVariant :=
  [vw "eng" "English" t.eng, vw "dut" "Dutch" t.dut, vw "fre" "French" t.fre,
   vw "ger" "German" t.ger, vw "hun" "Hungarian" t.hun, vw "rus" "Russian" t.rus,
   vw "slv" "Slovenian" t.slv, vw "spa" "Spanish" t.spa, vw "swe" "Swedish" t.swe]

def glossTypeVariants : List EnumVariant :=
  [v "" "RegularTranslation", v "expl" "Explanation", v "fig" "FigurativeSpeech",
   v "lit" "LiteralTranslation", v "tm" "Trademark"]

def kanjiInfoVariants : List EnumVariant :=
  [v "ateji" "Ateji", v "iK" "IrregularKanjiUsage", v "ik" "IrregularKanaUsage",
   v "io" "IrregularOkuriganaUsage", v "oK" "OutdatedKanji", v "rK" "RareKanjiForm"]

/-- `PartOfSpeech` variant table; `arch` is the `scope-archaic` cargo feature. -/
def posVariants (arch : Bool) : List EnumVariant :=
  [v "adj-f" "NounOrVerbActingPrenominally", v "adj-i" "Adjective",
   v "adj-ix" "YoiAdjective", vw "adj-kari" "KariAdjective" arch,
   vw "adj-ku" "KuAdjective" arch, v "adj-na" "AdjectivalNoun",
   vw "adj-nari" "NariAdjective" arch, v "adj-no" "NoAdjective",
   v "adj-pn" "PreNounAdjectival", vw "adj-shiku" "ShikuAdjective" arch,
   v "adj-t" "TaruAdjective", v "adv" "Adverb",
   v "adv-to" "AdverbTakingToParticle", v "aux" "Auxiliary",
   v "aux-adj" "AuxiliaryAdjective", v "aux-v" "AuxiliaryVerb",
   v "conj" "Conjunction", v "cop" "Copula", v "ctr" "Counter",
   v "exp" "Expression", v "int" "Interjection", v "n" "CommonNoun",
   v "n-adv" "AdverbialNoun", v "n-pr" "ProperNoun", v "n-pref" "NounPrefix",
   v "n-suf" "NounSuffix", v "n-t" "TemporalNoun", v "num" "Numeric",
   v "pn" "Pronoun", v "pref" "Prefix", v "prt" "Particle", v "suf" "Suffix",
   v "unc" "Unclassified", v "v-unspec" "UnspecifiedVerb", v "v1" "IchidanVerb",
   v "v1-s" "IchidanKureruVerb", vw "v2a-s" "NidanUVerb" arch,
   vw "v2b-k" "UpperNidanBuVerb" arch, vw "v2b-s" "LowerNidanBuVerb" arch,
   vw "v2d-k" "UpperNidanDzuVerb" arch, vw "v2d-s" "LowerNidanDzuVerb" arch,
   vw "v2g-k" "UpperNidanGuVerb" arch, vw "v2g-s" "LowerNidanGuVerb" arch,
   vw "v2h-k" "UpperNidanFuVerb" arch, vw "v2h-s" "LowerNidanFuVerb" arch,
   vw "v2k-k" "UpperNidanKuVerb" arch, vw "v2k-s" "LowerNidanKuVerb" arch,
   vw "v2m-k" "UpperNidanMuVerb" arch, vw "v2m-s" "LowerNidanMuVerb" arch,
   vw "v2n-s" "LowerNidanNuVerb" arch, vw "v2r-k" "UpperNidanRuVerb" arch,
   vw "v2r-s" "LowerNidanRuVerb" arch, vw "v2s-s" "LowerNidanSuVerb" arch,
   vw "v2t-k" "UpperNidanTsuVerb" arch, vw "v2t-s" "LowerNidanTsuVerb" arch,
   vw "v2w-s" "LowerNidanUWeVerb" arch, vw "v2y-k" "UpperNidanYuVerb" arch,
   vw "v2y-s" "LowerNidanYuVerb" arch, vw "v2z-s" "LowerNidanZuVerb" arch,
   vw "v4b" "YodanBuVerb" arch, vw "v4g" "YodanGuVerb" arch,
   vw "v4h" "YodanFuVerb" arch, vw "v4k" "YodanKuVerb" arch,
   vw "v4m" "YodanMuVerb" arch, vw "v4n" "YodanNuVerb" arch,
   vw "v4r" "YodanRuVerb" arch, vw "v4s" "YodanSuVerb" arch,
   vw "v4t" "YodanTsuVerb" arch, v "v5aru" "GodanAruVerb", v "v5b" "GodanBuVerb",
   v "v5g" "GodanGuVerb", v "v5k" "GodanKuVerb", v "v5k-s" "GodanIkuVerb",
   v "v5m" "GodanMuVerb", v "v5n" "GodanNuVerb", v "v5r" "GodanRuVerb",
   v "v5r-i" "IrregularGodanRuVerb", v "v5s" "GodanSuVerb",
   v "v5t" "GodanTsuVerb", v "v5u" "GodanUVerb", v "v5u-s" "IrregularGodanUVerb",
   v "vi" "IntransitiveVerb", v "vk" "KuruVerb", v "vn" "IrregularGodanNuVerb",
   v "vr" "IrregularGodanRuVerbWithPlainRiForm", v "vs" "SuruVerb",
   v "vs-c" "SuruPrecursorVerb", v "vs-i" "IncludedSuruVerb",
   v "vs-s" "SpecialSuruVerb", v "vt" "TransitiveVerb", v "vz" "IchidanZuruVerb"]

def readingInfoVariants : List EnumVariant :=
  [v "gikun" "GikunOrJukujikun", v "ik" "IrregularKanaUsage",
   v "ok" "OutdatedKanaUsage", v "uK" "UsuallyWrittenUsingKanjiAlone"]

def senseInfoVariants : List EnumVariant :=
  [v "X" "XRated", v "abbr" "Abbreviation", v "arch" "Archaism",
   v "char" "Character", v "chn" "ChildrensLanguage", v "col" "Colloquialism",
   v "company" "CompanyName", v "creat" "Creature", v "dated" "DatedTerm",
   v "dei" "Deity", v "derog" "Derogatory", v "doc" "Document", v "ev" "Event",
   v "fam" "FamiliarLanguage", v "fem" "FemaleTermOrLanguage", v "fict" "Fiction",
   v "form" "FormalOrLiteraryTerm", v "given" "GivenName", v "group" "Group",
   v "hist" "HistoricalTerm", v "hon" "HonorificLanguage", v "hum" "HumbleLanguage",
   v "id" "IdiomaticExpression", v "joc" "JocularTerm", v "leg" "Legend",
   v "m-sl" "MangaSlang", v "male" "MaleTermOrLanguage", v "myth" "Mythology",
   v "net-sl" "InternetSlang", v "obj" "Object", v "obs" "ObsoleteTerm",
   v "obsc" "ObscureTerm", v "on-mim" "Onomatopoeia",
   v "organization" "OrganizationName", v "oth" "Other", v "person" "PersonName",
   v "place" "PlaceName", v "poet" "PoeticalTerm", v "pol" "PoliteLanguage",
   v "product" "ProductName", v "proverb" "Proverb", v "quote" "Quotation",
   v "rare" "Rare", v "relig" "Religion", v "sens" "Sensitive", v "serv" "Service",
   v "sl" "Slang", v "station" "RailwayStation", v "surname" "Surname",
   v "uk" "UsuallyWrittenUsingKanaAlone", v "unclass" "UnclassifiedName",
   v "vulg" "VulgarTerm", v "work" "WorkOfArt", v "yoji" "Yojijukugo"]

def senseTopicVariants : List EnumVariant :=
  [v "Buddh" "Buddhism", v "Christn" "Christianity", v "MA" "MartialArts",
   v "Shinto" "Shinto", v "agric" "Agriculture", v "anat" "Anatomy",
   v "archeol" "Archeology", v "archit" "Architecture", v "art" "Art",
   v "astron" "Astronomy", v "audvid" "AudioVisual", v "aviat" "Aviation",
   v "baseb" "Baseball", v "biochem" "Biochemistry", v "biol" "Biology",
   v "bot" "Botany", v "bus" "Business", v "chem" "Chemistry",
   v "cloth" "Clothing", v "comp" "Computing", v "cryst" "Crystallography",
   v "ecol" "Ecology", v "econ" "Economics", v "elec" "ElectricalEngineering",
   v "electr" "Electronics", v "embryo" "Embryology", v "engr" "Engineering",
   v "ent" "Entomology", v "finc" "Finance", v "fish" "Fishing", v "food" "Food",
   v "gardn" "Gardening", v "genet" "Genetics", v "geogr" "Geography",
   v "geol" "Geology", v "geom" "Geometry", v "go" "Go", v "golf" "Golf",
   v "gramm" "Grammar", v "grmyth" "GreekMythology", v "hanaf" "Hanafuda",
   v "horse" "Horseracing", v "law" "Law", v "ling" "Linguistics",
   v "logic" "Logic", v "mahj" "Mahjong", v "math" "Mathematics",
   v "mech" "MechanicalEngineering", v "med" "Medicine", v "met" "Meteorology",
   v "mil" "Military", v "music" "Music", v "ornith" "Ornithology",
   v "paleo" "Paleontology", v "pathol" "Pathology", v "pharm" "Pharmacy",
   v "phil" "Philosophy", v "photo" "Photography", v "physics" "Physics",
   v "physiol" "Physiology", v "print" "Printing", v "psy" "Psychiatry",
   v "psych" "Psychology", v "rail" "Railway", v "shogi" "Shogi",
   v "sports" "Sports", v "stat" "Statistics", v "sumo" "Sumo",
   v "telec" "Telecommunications", v "tradem" "Trademark", v "vidg" "VideoGame",
   v "zool" "Zoology"]

/-! ## Claims C7 and C10: generated enum conversions -/

/-- C7.  Enum narrowing: a full-domain value of a build-disabled variant
converts to the typed error `DisabledVariant` (never a panic), an enabled one
converts successfully, and for every enabled value `k` the round trip
`narrow (widen k)` succeeds and returns `k`.  Full-domain values are indices
`i` into the variant table; restricted values are ordinals `k` below
`numEnabled`. -/
theorem c7_enum_narrowing (vs : List EnumVariant) (i : Nat) (h : i < vs.length) :
    ((vs.get ⟨i, h⟩).enabled = false → try_from_all vs i = .error .mk) ∧
    ((vs.get ⟨i, h⟩).enabled = true → try_from_all vs i = .ok (rankEnabled vs i)) ∧
    (∀ k, k < numEnabled vs → try_from_all vs (widenIdx vs k) = .ok k) := by
  refine ⟨?_, ?_, ?_⟩
  · intro hdis
    simp only [List.get_eq_getElem] at hdis
    simp [try_from_all, List.getElem?_eq_getElem h, hdis]
  · intro hen
    simp only [List.get_eq_getElem] at hen
    simp [try_from_all, List.getElem?_eq_getElem h, hen]
  · intro k hk
    obtain ⟨hlt, hen, hrank⟩ := widenIdx_spec vs k hk
    simp only [List.get_eq_getElem] at hen
    simp [try_from_all, List.getElem?_eq_getElem hlt, hen, hrank]

/-- Witness for C7 at the `GlossLanguage` domain in the default configuration
(English enabled, Dutch disabled). -/
theorem c7_enum_narrowing_witness :
    try_from_all (glossLanguageVariants defaultTrans) 1 = .error .mk ∧
    try_from_all (glossLanguageVariants defaultTrans) (widenIdx (glossLanguageVariants defaultTrans) 0) = .ok 0 := by
  constructor
  · exact (c7_enum_narrowing (glossLanguageVariants defaultTrans) 1 (by decide)).1 (by decide)
  · exact (c7_enum_narrowing (glossLanguageVariants defaultTrans) 1 (by decide)).2.2 0 (by decide)

/-- C10.  Generated payload codec: `from_u32 (to_u32 v) = v` for every ordinal
`v` of an enabled variant (`v < m` where `m` is the number of enabled
variants), and `from_u32` hits the panic branch (modelled as `none`) exactly
on the inputs that are not ordinals of enabled variants. -/
theorem c10_enum_payload_decode (m : Nat) :
    (∀ x, x < m → from_u32 m (to_u32 x) = some x) ∧
    (∀ n, from_u32 m n = none ↔ m ≤ n) := by
  constructor
  · intro x hx
    simp [from_u32, to_u32, hx]
  · intro n
    constructor
    · intro hn
      by_contra hlt
      simp [from_u32, Nat.lt_of_not_le hlt] at hn
    · intro hn
      simp [from_u32, Nat.not_lt.mpr hn]

/-- Witness for C10 at the `KanjiInfo` domain (6 enabled variants): ordinal 3
round-trips, ordinal 6 hits the panic branch. -/
theorem c10_enum_payload_decode_witness :
    from_u32 (numEnabled kanjiInfoVariants) (to_u32 3) = some 3 ∧
    from_u32 (numEnabled kanjiInfoVariants) 6 = none := by
  constructor
  · exact (c10_enum_payload_decode (numEnabled kanjiInfoVariants)).1 3 (by decide)
  · exact (c10_enum_payload_decode (numEnabled kanjiInfoVariants)).2 6 |>.mpr (by decide)

/-! ## Priority marker merger (`jmdict-traverse/src/lib.rs` lines 176-245) -/

inductive PriorityInCorpus where
  | Absent
  | Secondary
  | Primary
deriving DecidableEq, Repr

structure Priority where
  news : PriorityInCorpus
  ichimango : PriorityInCorpus
  loanwords : PriorityInCorpus
  additional : PriorityInCorpus
  frequency_bucket : Nat
deriving DecidableEq, Repr

/-- `merge_cprio`, with the source's exact match-arm order. -/
def merge_cprio : PriorityInCorpus → PriorityInCorpus → PriorityInCorpus
  | .Absent, new => new
  | _, .Primary => .Primary
  | .Primary, _ => .Primary
  | .Secondary, _ => .Secondary

/-- Rust `char::to_digit(10)`. -/
def char_to_digit (c : Char) : Option Nat :=
  if c.isDigit then some (c.toNat - 48) else none

/-- `parse_freq_bucket`: "nfNN" => NN, accepting only nf01..nf48; every check
of the source's char-by-char scan is mirrored in order. -/
def parse_freq_bucket (marker : String) : Option Nat :=
  match marker.data with
  | [] => none
  | c0 :: rest0 =>
    if c0 ≠ 'n' then none else
    match rest0 with
    | [] => none
    | c1 :: rest1 =>
      if c1 ≠ 'f' then none else
      match rest1 with
      | [] => none
      | c2 :: rest2 =>
        match char_to_digit c2 with
        | none => none
        | some tens =>
          match rest2 with
          | [] => none
          | c3 :: rest3 =>
            match char_to_digit c3 with
            | none => none
            | some ones =>
              match rest3 with
              | _ :: _ => none
              | [] =>
                let result := 10 * tens + ones
                if result = 0 ∨ result > 48 then none else some result

/-- The body of `parse_prio`'s `for marker in markers` loop, with `result` as
the loop accumulator; the unknown-marker `panic!` is modelled as `none`. -/
def parse_prio_loop (result : Priority) : List String → Option Priority
  | [] => some result
  | marker :: rest =>
    if marker = "news1" then
      parse_prio_loop { result with news := merge_cprio result.news .Primary } rest
    else if marker = "news2" then
      parse_prio_loop { result with news := merge_cprio result.news .Secondary } rest
    else if marker = "ichi1" then
      parse_prio_loop { result with ichimango := merge_cprio result.ichimango .Primary } rest
    else if marker = "ichi2" then
      parse_prio_loop { result with ichimango := merge_cprio result.ichimango .Secondary } rest
    else if marker = "gai1" then
      parse_prio_loop { result with loanwords := merge_cprio result.loanwords .Primary } rest
    else if marker = "gai2" then
      parse_prio_loop { result with loanwords := merge_cprio result.loanwords .Secondary } rest
    else if marker = "spec1" then
      parse_prio_loop { result with additional := merge_cprio result.additional .Primary } rest
    else if marker = "spec2" then
      parse_prio_loop { result with additional := merge_cprio result.additional .Secondary } rest
    else
      match parse_freq_bucket marker with
      | some bucket =>
        parse_prio_loop
          { result with
            frequency_bucket :=
              if result.frequency_bucket = 0 ∨ result.frequency_bucket > bucket then bucket
              else result.frequency_bucket } rest
      | none => none

def parse_prio (markers : List String) : Option Priority :=
  parse_prio_loop ⟨.Absent, .Absent, .Absent, .Absent, 0⟩ markers

/-! Specification-side vocabulary for C3: per-corpus tier contribution of a
marker, tier maximum, and minimum bucket. -/

def cpTier : PriorityInCorpus → Nat
  | .Absent => 0
  | .Secondary => 1
  | .Primary => 2

def cpMax (a b : PriorityInCorpus) : PriorityInCorpus :=
  if cpTier a ≤ cpTier b then b else a

def newsContrib (m : String) : PriorityInCorpus :=
  if m = "news1" then .Primary else if m = "news2" then .Secondary else .Absent

def ichiContrib (m : String) : PriorityInCorpus :=
  if m = "ichi1" then .Primary else if m = "ichi2" then .Secondary else .Absent

def gaiContrib (m : String) : PriorityInCorpus :=
  if m = "gai1" then .Primary else if m = "gai2" then .Secondary else .Absent

def specContrib (m : String) : PriorityInCorpus :=
  if m = "spec1" then .Primary else if m = "spec2" then .Secondary else .Absent

def maxTier (f : String → PriorityInCorpus) (ms : List String) : PriorityInCorpus :=
  ms.foldr (fun m acc => cpMax (f m) acc) .Absent

/-- Minimum of a bucket list, with 0 for the empty list ("none observed"). -/
def minBucket : List Nat → Nat
  | [] => 0
  | x :: xs => xs.foldl Nat.min x

/-- The accumulator update of `parse_prio`'s bucket branch. -/
def bstep (a b : Nat) : Nat := if a = 0 ∨ a > b then b else a

def bCombine (a : Nat) (l : List Nat) : Nat := l.foldl bstep a

/-- The fixed marker vocabulary: the eight two-tier markers plus nf01..nf48. -/
def ValidMarker (m : String) : Prop :=
  m = "news1" ∨ m = "news2" ∨ m = "ichi1" ∨ m = "ichi2" ∨ m = "gai1" ∨ m = "gai2" ∨
    m = "spec1" ∨ m = "spec2" ∨ (parse_freq_bucket m).isSome = true

instance (m : String) : Decidable (ValidMarker m) := by
  unfold ValidMarker
  infer_instance

theorem merge_cprio_eq_cpMax (a b : PriorityInCorpus) : merge_cprio a b = cpMax a b := by
  cases a <;> cases b <;> rfl

theorem cpMax_assoc (a b c : PriorityInCorpus) : cpMax (cpMax a b) c = cpMax a (cpMax b c) := by
  cases a <;> cases b <;> cases c <;> rfl

theorem cpMax_absent_right (a : PriorityInCorpus) : cpMax a .Absent = a := by
  cases a <;> rfl

theorem cpMax_absent_left (a : PriorityInCorpus) : cpMax .Absent a = a := by
  cases a <;> rfl

theorem parse_freq_bucket_pos (m : String) (b : Nat) (h : parse_freq_bucket m = some b) :
    0 < b ∧ b ≤ 48 := by
  unfold parse_freq_bucket at h
  repeat' split at h
  all_goals simp_all
  omega

theorem bstep_eq_min (a b : Nat) (ha : a ≠ 0) : bstep a b = Nat.min a b := by
  unfold bstep
  rw [show Nat.min a b = if a ≤ b then a else b from rfl]
  split <;> split <;> omega

theorem bCombine_pos_eq_min (l : List Nat) (a : Nat) (ha : 0 < a) (hl : ∀ x ∈ l, 0 < x) :
    bCombine a l = l.foldl Nat.min a := by
  induction l generalizing a with
  | nil => rfl
  | cons x xs ih =>
    have hx : 0 < x := hl x (by simp)
    have hxs : ∀ y ∈ xs, 0 < y := fun y hy => hl y (by simp [hy])
    show bCombine (bstep a x) xs = xs.foldl Nat.min (Nat.min a x)
    rw [bstep_eq_min a x (Nat.pos_iff_ne_zero.mp ha)]
    exact ih (Nat.min a x) (lt_min ha hx) hxs

theorem bCombine_zero_eq_minBucket (l : List Nat) (hl : ∀ x ∈ l, 0 < x) :
    bCombine 0 l = minBucket l := by
  cases l with
  | nil => rfl
  | cons x xs =>
    have hx : 0 < x := hl x (by simp)
    have hxs : ∀ y ∈ xs, 0 < y := fun y hy => hl y (by simp [hy])
    show bCombine (bstep 0 x) xs = minBucket (x :: xs)
    have : bstep 0 x = x := by simp [bstep]
    rw [this]
    exact bCombine_pos_eq_min xs x hx hxs

theorem parse_prio_loop_spec (markers : List String) (h : ∀ m ∈ markers, ValidMarker m)
    (acc : Priority) :
    parse_prio_loop acc markers = some
      { news := cpMax acc.news (maxTier newsContrib markers),
        ichimango := cpMax acc.ichimango (maxTier ichiContrib markers),
        loanwords := cpMax acc.loanwords (maxTier gaiContrib markers),
        additional := cpMax acc.additional (maxTier specContrib markers),
        frequency_bucket := bCombine acc.frequency_bucket (markers.filterMap parse_freq_bucket) } := by
  induction markers generalizing acc with
  | nil =>
    simp [parse_prio_loop, maxTier, cpMax_absent_right, bCombine]
  | cons m rest ih =>
    have hrest : ∀ x ∈ rest, ValidMarker x := fun x hx => h x (by simp [hx])
    have hm : ValidMarker m := h m (by simp)
    by_cases h1 : m = "news1"
    · subst h1
      rw [show parse_prio_loop acc ("news1" :: rest)
          = parse_prio_loop { acc with news := merge_cprio acc.news .Primary } rest from rfl]
      rw [ih hrest]
      simp [maxTier, newsContrib, ichiContrib, gaiContrib, specContrib,
        merge_cprio_eq_cpMax, cpMax_assoc, cpMax_absent_left,
        show parse_freq_bucket "news1" = none from rfl]
    · by_cases h2 : m = "news2"
      · subst h2
        rw [show parse_prio_loop acc ("news2" :: rest)
            = parse_prio_loop { acc with news := merge_cprio acc.news .Secondary } rest from rfl]
        rw [ih hrest]
        simp [maxTier, newsContrib, ichiContrib, gaiContrib, specContrib,
          merge_cprio_eq_cpMax, cpMax_assoc, cpMax_absent_left,
          show parse_freq_bucket "news2" = none from rfl]
      · by_cases h3 : m = "ichi1"
        · subst h3
          rw [show parse_prio_loop acc ("ichi1" :: rest)
              = parse_prio_loop { acc with ichimango := merge_cprio acc.ichimango .Primary } rest from rfl]
          rw [ih hrest]
          simp [maxTier, newsContrib, ichiContrib, gaiContrib, specContrib,
            merge_cprio_eq_cpMax, cpMax_assoc, cpMax_absent_left,
            show parse_freq_bucket "ichi1" = none from rfl]
        · by_cases h4 : m = "ichi2"
          · subst h4
            rw [show parse_prio_loop acc ("ichi2" :: rest)
                = parse_prio_loop { acc with ichimango := merge_cprio acc.ichimango .Secondary } rest from rfl]
            rw [ih hrest]
            simp [maxTier, newsContrib, ichiContrib, gaiContrib, specContrib,
              merge_cprio_eq_cpMax, cpMax_assoc, cpMax_absent_left,
              show parse_freq_bucket "ichi2" = none from rfl]
          · by_cases h5 : m = "gai1"
            · subst h5
              rw [show parse_prio_loop acc ("gai1" :: rest)
                  = parse_prio_loop { acc with loanwords := merge_cprio acc.loanwords .Primary } rest from rfl]
              rw [ih hrest]
              simp [maxTier, newsContrib, ichiContrib, gaiContrib, specContrib,
                merge_cprio_eq_cpMax, cpMax_assoc, cpMax_absent_left,
                show parse_freq_bucket "gai1" = none from rfl]
            · by_cases h6 : m = "gai2"
              · subst h6
                rw [show parse_prio_loop acc ("gai2" :: rest)
                    = parse_prio_loop { acc with loanwords := merge_cprio acc.loanwords .Secondary } rest from rfl]
                rw [ih hrest]
                simp [maxTier, newsContrib, ichiContrib, gaiContrib, specContrib,
                  merge_cprio_eq_cpMax, cpMax_assoc, cpMax_absent_left,
                  show parse_freq_bucket "gai2" = none from rfl]
              · by_cases h7 : m = "spec1"
                · subst h7
                  rw [show parse_prio_loop acc ("spec1" :: rest)
                      = parse_prio_loop { acc with additional := merge_cprio acc.additional .Primary } rest from rfl]
                  rw [ih hrest]
                  simp [maxTier, newsContrib, ichiContrib, gaiContrib, specContrib,
                    merge_cprio_eq_cpMax, cpMax_assoc, cpMax_absent_left,
                    show parse_freq_bucket "spec1" = none from rfl]
                · by_cases h8 : m = "spec2"
                  · subst h8
                    rw [show parse_prio_loop acc ("spec2" :: rest)
                        = parse_prio_loop { acc with additional := merge_cprio acc.additional .Secondary } rest from rfl]
                    rw [ih hrest]
                    simp [maxTier, newsContrib, ichiContrib, gaiContrib, specContrib,
                      merge_cprio_eq_cpMax, cpMax_assoc, cpMax_absent_left,
                      show parse_freq_bucket "spec2" = none from rfl]
                  · obtain ⟨b, hb⟩ : ∃ b, parse_freq_bucket m = some b := by
                      rcases hm with h | h | h | h | h | h | h | h | h
                      all_goals first
                        | (exact absurd h (by assumption))
                        | (exact Option.isSome_iff_exists.mp h)
                    have hloop : parse_prio_loop acc (m :: rest)
                        = parse_prio_loop
                            { acc with
                              frequency_bucket := bstep acc.frequency_bucket b } rest := by
                      simp only [parse_prio_loop, h1, h2, h3, h4, h5, h6, h7, h8,
                        if_false, hb, bstep]
                    rw [hloop, ih hrest]
                    have hnc : newsContrib m = .Absent := by simp [newsContrib, h1, h2]
                    have hic : ichiContrib m = .Absent := by simp [ichiContrib, h3, h4]
                    have hgc : gaiContrib m = .Absent := by simp [gaiContrib, h5, h6]
                    have hsc : specContrib m = .Absent := by simp [specContrib, h7, h8]
                    simp [maxTier, hnc, hic, hgc, hsc, cpMax_absent_left, hb, bCombine]

/-- C3.  Priority merger: for any marker list drawn from the fixed vocabulary,
each corpus field of the parsed `Priority` is the maximum tier of that
corpus's markers (Absent < Secondary < Primary), and the bucket is the
numerically smallest nfNN value observed (0 when none); in particular
`{"news1","news2"}` gives news = Primary, `{}` gives all-Absent, and
`{"nf18","nf05"}` gives bucket 5. -/
theorem c3_priority_merge :
    (∀ markers : List String, (∀ m ∈ markers, ValidMarker m) →
      ∃ p, parse_prio markers = some p ∧
        p.news = maxTier newsContrib markers ∧
        p.ichimango = maxTier ichiContrib markers ∧
        p.loanwords = maxTier gaiContrib markers ∧
        p.additional = maxTier specContrib markers ∧
        p.frequency_bucket = minBucket (markers.filterMap parse_freq_bucket)) ∧
    (∃ p, parse_prio ["news1", "news2"] = some p ∧ p.news = .Primary) ∧
    parse_prio [] = some ⟨.Absent, .Absent, .Absent, .Absent, 0⟩ ∧
    (∃ p, parse_prio ["nf18", "nf05"] = some p ∧ p.frequency_bucket = 5) := by
  refine ⟨?_, ?_, by rfl, ?_⟩
  · intro markers h
    have hpos : ∀ x ∈ markers.filterMap parse_freq_bucket, 0 < x := by
      intro x hx
      obtain ⟨m, _, hm⟩ := List.mem_filterMap.mp hx
      exact (parse_freq_bucket_pos m x hm).1
    refine ⟨_, parse_prio_loop_spec markers h _, ?_, ?_, ?_, ?_, ?_⟩
    all_goals simp [cpMax_absent_left]
    exact bCombine_zero_eq_minBucket _ hpos
  · exact ⟨_, rfl, rfl⟩
  · exact ⟨_, rfl, rfl⟩

/-- Witness for C3, applying the universal part at the concrete marker list
`["news1", "nf18", "nf05"]`. -/
theorem c3_priority_merge_witness :
    ∃ p, parse_prio ["news1", "nf18", "nf05"] = some p ∧
      p.news = maxTier newsContrib ["news1", "nf18", "nf05"] ∧
      p.ichimango = maxTier ichiContrib ["news1", "nf18", "nf05"] ∧
      p.loanwords = maxTier gaiContrib ["news1", "nf18", "nf05"] ∧
      p.additional = maxTier specContrib ["news1", "nf18", "nf05"] ∧
      p.frequency_bucket = minBucket (List.filterMap parse_freq_bucket ["news1", "nf18", "nf05"]) :=
  c3_priority_merge.1 ["news1", "nf18", "nf05"] (by decide)

/-! ## Record normalizer (`jmdict-traverse/src/lib.rs`)

The JSON entrypack has a fixed, well-typed schema (one object per entry with
fields `n`, `K`, `R`, `S`, ...), so the `JsonValue` access patterns of
`from_obj` are embedded as typed structures: a field read with
`as_str().unwrap_or(default)` on a possibly-absent attribute becomes
`Option String`, an array field becomes a `List`.  A Rust `panic!` is
`Except.error`; the `Option` in `Except Err (Option _)` is the
filter_map-level drop of `Object::from_obj`.  The `?`-propagation of
`collect_or_none` is mirrored by explicit matches.  Enum values are
represented by their generated ordinals (`Nat`). -/

abbrev Err := String

structure Options where
  is_db_minimal : Bool
  with_uncommon : Bool
  with_archaic : Bool
deriving DecidableEq, Repr

structure JKanji where
  t : String
  i : List String
  p : List String
deriving DecidableEq, Repr

structure JReading where
  t : String
  n : Option Bool
  r : List String
  i : List String
  p : List String
deriving DecidableEq, Repr

structure JLSource where
  t : String
  l : Option String
  ls_type : Option String
  wasei : Option String
deriving DecidableEq, Repr

structure JGloss where
  t : String
  l : Option String
  g_type : Option String
deriving DecidableEq, Repr

structure JSense where
  stagk : List String
  stagr : List String
  p : List String
  xref : List String
  ant : List String
  f : List String
  m : List String
  i : List String
  L : List JLSource
  dial : List String
  G : List JGloss
deriving DecidableEq, Repr

structure JEntry where
  n : Nat
  K : List JKanji
  R : List JReading
  S : List JSense
deriving DecidableEq, Repr

/-- Normalized output records (`jmdict_traverse::Raw*`). -/
structure RawKanjiElement where
  keb : String
  ke_inf : List Nat
  ke_pri : Priority
deriving DecidableEq, Repr

structure RawReadingElement where
  reb : String
  re_nokanji : Bool
  re_restr : List String
  re_inf : List Nat
  re_pri : Priority
deriving DecidableEq, Repr

/-- `RawLSource`; the partial-borrowing flag field of the source is named
is_partial, shortened here to `is_part`. -/
structure RawLSource where
  text : String
  lang : String
  is_part : Bool
  is_wasei : Bool
deriving DecidableEq, Repr

structure RawGloss where
  text : String
  lang : Nat
  g_type : Nat
deriving DecidableEq, Repr

structure RawSense where
  stagk : List String
  stagr : List String
  pos : List Nat
  xref : List String
  ant : List String
  field : List Nat
  misc : List Nat
  s_inf : List String
  lsource : List RawLSource
  dial : List Nat
  gloss : List RawGloss
deriving DecidableEq, Repr

structure RawEntry where
  ent_seq : Nat
  k_ele : List RawKanjiElement
  r_ele : List RawReadingElement
  sense : List RawSense
deriving DecidableEq, Repr

/-- `Object::collect`: `filter_map` over the array's members, with panic
(error) propagation in member order. -/
def collectE {α β : Type} (f : α → Except Err (Option β)) : List α → Except Err (List β)
  | [] => .ok []
  | x :: xs =>
    match f x with
    | .error e => .error e
    | .ok r =>
      match collectE f xs with
      | .error e => .error e
      | .ok rest =>
        match r with
        | none => .ok rest
        | some b => .ok (b :: rest)

/-- `Object::collect_or_none`: `None` when the collected vector is empty. -/
def collect_or_noneE {α β : Type} (f : α → Except Err (Option β)) (xs : List α) :
    Except Err (Option (List β)) :=
  match collectE f xs with
  | .error e => .error e
  | .ok vec => .ok (if vec.isEmpty then none else some vec)

/-- `optional_enum`: `as_str().unwrap_or(default)` then `from_code`, panicking
on an unknown code. -/
def optional_enum (vs : List EnumVariant) (dflt : String) (enum_name : String)
    (o : Option String) : Except Err Nat :=
  match from_code vs (o.getD dflt) with
  | some val => .ok val
  | none => .error ("unknown " ++ enum_name ++ " representation: " ++ o.getD dflt)

/-- `required_enum`: `as_str().unwrap()` then `from_code`, panicking on an
unknown code. -/
def required_enum (vs : List EnumVariant) (enum_name : String) (code : String) :
    Except Err Nat :=
  match from_code vs code with
  | some val => .ok val
  | none => .error ("unknown " ++ enum_name ++ " representation: " ++ code)

/-- `Object for &str`. -/
def strFromObj (_opts : Options) (s : String) : Except Err (Option String) :=
  .ok (some s)

def Dialect.from_obj (_opts : Options) (code : String) : Except Err (Option Nat) :=
  match required_enum dialectVariants "Dialect" code with
  | .error e => .error e
  | .ok val => .ok (some val)

def KanjiInfo.from_obj (_opts : Options) (code : String) : Except Err (Option Nat) :=
  match required_enum kanjiInfoVariants "KanjiInfo" code with
  | .error e => .error e
  | .ok val => .ok (some val)

def ReadingInfo.from_obj (_opts : Options) (code : String) : Except Err (Option Nat) :=
  match required_enum readingInfoVariants "ReadingInfo" code with
  | .error e => .error e
  | .ok val => .ok (some val)

def SenseInfo.from_obj (_opts : Options) (code : String) : Except Err (Option Nat) :=
  match required_enum senseInfoVariants "SenseInfo" code with
  | .error e => .error e
  | .ok val => .ok (some val)

def SenseTopic.from_obj (_opts : Options) (code : String) : Except Err (Option Nat) :=
  match required_enum senseTopicVariants "SenseTopic" code with
  | .error e => .error e
  | .ok val => .ok (some val)

/-- `Object for GlossLanguage`: parse in the fully-populated domain (default
code "eng"), then narrow; a disabled language yields `None` (drop), an unknown
code panics. -/
def GlossLanguage.from_obj (tc : TransConfig) (_opts : Options) (o : Option String) :
    Except Err (Option Nat) :=
  match optional_enum (allOf (glossLanguageVariants tc)) "eng" "AllGlossLanguage" o with
  | .error e => .error e
  | .ok lang => .ok (try_from_all (glossLanguageVariants tc) lang).toOption

/-- `Object for PartOfSpeech`; `arch` is the `scope-archaic` feature that
gates the table's disabled variants. -/
def PartOfSpeech.from_obj (arch : Bool) (_opts : Options) (code : String) :
    Except Err (Option Nat) :=
  match optional_enum (allOf (posVariants arch)) "eng" "AllPartOfSpeech" (some code) with
  | .error e => .error e
  | .ok val => .ok (try_from_all (posVariants arch) val).toOption

/-- Ordinal of `SenseInfo::Archaism` ("arch", third entry of the table). -/
def senseInfoArchaism : Nat := 2

theorem senseInfoArchaism_from_code : from_code senseInfoVariants "arch" = some senseInfoArchaism := by
  decide

def RawKanjiElement.from_obj (opts : Options) (o : JKanji) :
    Except Err (Option RawKanjiElement) :=
  if opts.with_uncommon = false ∧ o.p.isEmpty then .ok none
  else
    match collectE (KanjiInfo.from_obj opts) o.i with
    | .error e => .error e
    | .ok ke_inf =>
      match parse_prio o.p with
      | none => .error "unknown priority marker"
      | some ke_pri => .ok (some ⟨o.t, ke_inf, ke_pri⟩)

def RawReadingElement.from_obj (opts : Options) (o : JReading) :
    Except Err (Option RawReadingElement) :=
  if opts.with_uncommon = false ∧ o.p.isEmpty then .ok none
  else
    match collectE (ReadingInfo.from_obj opts) o.i with
    | .error e => .error e
    | .ok re_inf =>
      match parse_prio o.p with
      | none => .error "unknown priority marker"
      | some re_pri => .ok (some ⟨o.t, o.n.getD false, o.r, re_inf, re_pri⟩)

/-- Second half of `RawLSource::from_obj` (the `wasei` attribute and the final
struct), split out so the `ls_type` match stays first as in the source. -/
def RawLSource.parse_wasei (o : JLSource) (ip : Bool) : Except Err (Option RawLSource) :=
  match o.wasei.getD "n" with
  | "n" => .ok (some ⟨o.t, o.l.getD "eng", ip, false⟩)
  | "y" => .ok (some ⟨o.t, o.l.getD "eng", ip, true⟩)
  | other => .error ("unknown ls_wasei: " ++ other)

def RawLSource.from_obj (_opts : Options) (o : JLSource) : Except Err (Option RawLSource) :=
  match o.ls_type.getD "full" with
  | "full" => RawLSource.parse_wasei o false
  | "part" => RawLSource.parse_wasei o true
  | other => .error ("unknown ls_type: " ++ other)

def RawGloss.from_obj (tc : TransConfig) (opts : Options) (o : JGloss) :
    Except Err (Option RawGloss) :=
  match GlossLanguage.from_obj tc opts o.l with
  | .error e => .error e
  | .ok none => .ok none
  | .ok (some lang) =>
    match optional_enum glossTypeVariants "" "GlossType" o.g_type with
    | .error e => .error e
    | .ok g_type => .ok (some ⟨o.t, lang, g_type⟩)

def RawSense.from_obj (tc : TransConfig) (arch : Bool) (opts : Options) (o : JSense) :
    Except Err (Option RawSense) :=
  match collectE (SenseInfo.from_obj opts) o.m with
  | .error e => .error e
  | .ok misc =>
    if opts.with_archaic = false ∧ misc.contains senseInfoArchaism then .ok none
    else
      match collectE (strFromObj opts) o.stagk with
      | .error e => .error e
      | .ok stagk =>
        match collectE (strFromObj opts) o.stagr with
        | .error e => .error e
        | .ok stagr =>
          match collectE (PartOfSpeech.from_obj arch opts) o.p with
          | .error e => .error e
          | .ok pos =>
            match collectE (strFromObj opts) o.xref with
            | .error e => .error e
            | .ok xref =>
              match collectE (strFromObj opts) o.ant with
              | .error e => .error e
              | .ok ant =>
                match collectE (SenseTopic.from_obj opts) o.f with
                | .error e => .error e
                | .ok field =>
                  match collectE (strFromObj opts) o.i with
                  | .error e => .error e
                  | .ok s_inf =>
                    match collectE (RawLSource.from_obj opts) o.L with
                    | .error e => .error e
                    | .ok lsource =>
                      match collectE (Dialect.from_obj opts) o.dial with
                      | .error e => .error e
                      | .ok dial =>
                        match collect_or_noneE (RawGloss.from_obj tc opts) o.G with
                        | .error e => .error e
                        | .ok none => .ok none
                        | .ok (some gloss) =>
                          .ok (some ⟨stagk, stagr, pos, xref, ant, field, misc, s_inf,
                            lsource, dial, gloss⟩)

def RawEntry.from_obj (tc : TransConfig) (arch : Bool) (opts : Options) (o : JEntry) :
    Except Err (Option RawEntry) :=
  match collectE (RawKanjiElement.from_obj opts) o.K with
  | .error e => .error e
  | .ok k_ele =>
    match collect_or_noneE (RawReadingElement.from_obj opts) o.R with
    | .error e => .error e
    | .ok none => .ok none
    | .ok (some r_ele) =>
      match collect_or_noneE (RawSense.from_obj tc arch opts) o.S with
      | .error e => .error e
      | .ok none => .ok none
      | .ok (some sense) => .ok (some ⟨o.n, k_ele, r_ele, sense⟩)

/-- The entry loop of `process_dictionary`, returning the sequence of entries
passed to the visitor.  On a db-minimal build the loop `return`s (stops the
whole traversal) when a retained entry's sequence number reaches 1010000,
before visiting it. -/
def processEntries (tc : TransConfig) (arch : Bool) (opts : Options) :
    List JEntry → Except Err (List RawEntry)
  | [] => .ok []
  | e :: rest =>
    match RawEntry.from_obj tc arch opts e with
    | .error err => .error err
    | .ok none => processEntries tc arch opts rest
    | .ok (some raw) =>
      if opts.is_db_minimal = true ∧ 1010000 ≤ raw.ent_seq then .ok []
      else
        match processEntries tc arch opts rest with
        | .error err => .error err
        | .ok l => .ok (raw :: l)

/-! ## Claim C4: non-degeneracy invariant -/

theorem collect_or_noneE_ok_some {α β : Type} (f : α → Except Err (Option β)) (xs : List α)
    (l : List β) (h : collect_or_noneE f xs = .ok (some l)) : l ≠ [] := by
  unfold collect_or_noneE at h
  split at h
  · exact absurd h (by simp)
  · rename_i vec hvec
    by_cases he : vec.isEmpty
    · simp [he] at h
    · simp [he] at h
      subst h
      simpa [List.isEmpty_iff] using he

theorem collectE_mem {α β : Type} (f : α → Except Err (Option β)) (xs : List α) (l : List β)
    (h : collectE f xs = .ok l) : ∀ b ∈ l, ∃ x ∈ xs, f x = .ok (some b) := by
  induction xs generalizing l with
  | nil =>
    simp [collectE] at h
    subst h
    simp
  | cons x xs ih =>
    unfold collectE at h
    cases hfx : f x with
    | error e => rw [hfx] at h; exact absurd h (by simp)
    | ok r =>
      rw [hfx] at h
      cases hrec : collectE f xs with
      | error e => rw [hrec] at h; exact absurd h (by simp)
      | ok rest =>
        rw [hrec] at h
        cases r with
        | none =>
          simp at h
          subst h
          intro b hb
          obtain ⟨x', hx', hfx'⟩ := ih rest hrec b hb
          exact ⟨x', by simp [hx'], hfx'⟩
        | some bb =>
          simp at h
          subst h
          intro b hb
          rcases List.mem_cons.mp hb with hb | hb
          · subst hb
            exact ⟨x, by simp, hfx⟩
          · obtain ⟨x', hx', hfx'⟩ := ih rest hrec b hb
            exact ⟨x', by simp [hx'], hfx'⟩

theorem RawSense_gloss_nonempty (tc : TransConfig) (arch : Bool) (opts : Options) (o : JSense)
    (s : RawSense) (h : RawSense.from_obj tc arch opts o = .ok (some s)) : s.gloss ≠ [] := by
  unfold RawSense.from_obj at h
  repeat' split at h
  all_goals try exact Except.noConfusion h
  all_goals try (injection h with h2; exact Option.noConfusion h2)
  rename_i gl hgl
  injection h with h2
  injection h2 with h3
  rw [← h3]
  simpa using collect_or_noneE_ok_some _ _ _ hgl

/-- C4.  Non-degeneracy: every entry surviving normalization has at least one
reading element and at least one sense, and each of its senses has at least
one gloss (`collect_or_none` drops empty collections, and the entry/sense
`from_obj` propagate the drop). -/
theorem c4_non_degeneracy (tc : TransConfig) (arch : Bool) (opts : Options) (o : JEntry)
    (out : RawEntry) (h : RawEntry.from_obj tc arch opts o = .ok (some out)) :
    out.r_ele ≠ [] ∧ out.sense ≠ [] ∧ ∀ s ∈ out.sense, s.gloss ≠ [] := by
  unfold RawEntry.from_obj at h
  repeat' split at h
  all_goals try exact Except.noConfusion h
  all_goals try (injection h with h2; exact Option.noConfusion h2)
  rename_i x1 r_ele hre x2 sense hse
  injection h with h2
  injection h2 with h3
  subst h3
  refine ⟨?_, ?_, ?_⟩
  · exact collect_or_noneE_ok_some _ _ _ hre
  · exact collect_or_noneE_ok_some _ _ _ hse
  · intro s hs
    unfold collect_or_noneE at hse
    split at hse
    · exact absurd hse (by simp)
    · rename_i vec hvec
      by_cases he : vec.isEmpty
      · simp [he] at hse
      · simp [he] at hse
        subst hse
        obtain ⟨x, _, hx⟩ := collectE_mem _ _ _ hvec s hs
        exact RawSense_gloss_nonempty tc arch opts x s hx

/-- Sample entry for the witnesses: no kanji element, one reading with a
"news1" priority marker, one sense with a single English gloss. -/
def sampleJEntry : JEntry :=
  ⟨1000001, [], [⟨"kaa", none, [], [], ["news1"]⟩],
   [⟨[], [], [], [], [], [], [], [], [], [], [⟨"mom", none, none⟩]⟩]⟩

/-- The normalized form of `sampleJEntry`. -/
def sampleRawEntry : RawEntry :=
  ⟨1000001, [], [⟨"kaa", false, [], [], ⟨.Primary, .Absent, .Absent, .Absent, 0⟩⟩],
   [⟨[], [], [], [], [], [], [], [], [], [], [⟨"mom", 0, 0⟩]⟩]⟩

/-- Witness for C4 at `sampleJEntry` under the default configuration. -/
theorem c4_non_degeneracy_witness :
    RawEntry.from_obj defaultTrans false ⟨false, false, false⟩ sampleJEntry
      = .ok (some sampleRawEntry) ∧
    (sampleRawEntry.r_ele ≠ [] ∧ sampleRawEntry.sense ≠ [] ∧
      ∀ s ∈ sampleRawEntry.sense, s.gloss ≠ []) :=
  ⟨rfl,
   c4_non_degeneracy defaultTrans false ⟨false, false, false⟩ sampleJEntry sampleRawEntry
     rfl⟩

/-! ## Claim C8: db-minimal truncation -/

theorem processEntries_minimal_bound (tc : TransConfig) (arch : Bool) (opts : Options)
    (hmin : opts.is_db_minimal = true) (es : List JEntry) :
    ∀ out, processEntries tc arch opts es = .ok out → ∀ r ∈ out, r.ent_seq < 1010000 := by
  induction es with
  | nil =>
    intro out h r hr
    simp [processEntries] at h
    subst h
    simp at hr
  | cons e rest ih =>
    intro out h r hr
    unfold processEntries at h
    split at h
    · exact absurd h (by simp)
    · exact ih out h r hr
    · rename_i raw _
      split at h
      · simp at h
        subst h
        simp at hr
      · rename_i hcond
        split at h
        · exact absurd h (by simp)
        · rename_i l hl
          simp at h
          subst h
          rcases List.mem_cons.mp hr with hr | hr
          · subst hr
            rw [hmin] at hcond
            simp at hcond
            omega
          · exact ih l hl r hr

theorem processEntries_no_minimal (tc : TransConfig) (arch : Bool) (opts : Options)
    (hmin : opts.is_db_minimal = false) (es : List JEntry) :
    processEntries tc arch opts es = collectE (RawEntry.from_obj tc arch opts) es := by
  induction es with
  | nil => rfl
  | cons e rest ih =>
    unfold processEntries collectE
    cases hfe : RawEntry.from_obj tc arch opts e with
    | error err => rfl
    | ok r =>
      cases r with
      | none =>
        rw [ih]
        cases hrec : collectE (RawEntry.from_obj tc arch opts) rest <;> rfl
      | some raw =>
        rw [hmin]
        simp only [false_and, if_false]
        rw [ih]
        cases hrec : collectE (RawEntry.from_obj tc arch opts) rest <;> rfl

/-- C8.  Truncation: on a db-minimal build, processing stops entirely at the
first retained entry whose sequence number reaches 1010000 (that entry and
everything after it are never visited), so no visited entry has a sequence
number ≥ 1010000; without db-minimal, the loop is the plain filtered
traversal with no cutoff. -/
theorem c8_truncation (tc : TransConfig) (arch : Bool) (opts : Options) :
    (opts.is_db_minimal = true →
      ∀ es out, processEntries tc arch opts es = .ok out → ∀ r ∈ out, r.ent_seq < 1010000) ∧
    (opts.is_db_minimal = true →
      ∀ e rest raw, RawEntry.from_obj tc arch opts e = .ok (some raw) →
        1010000 ≤ raw.ent_seq → processEntries tc arch opts (e :: rest) = .ok []) ∧
    (opts.is_db_minimal = false →
      ∀ es, processEntries tc arch opts es = collectE (RawEntry.from_obj tc arch opts) es) := by
  refine ⟨?_, ?_, ?_⟩
  · intro hmin es
    exact processEntries_minimal_bound tc arch opts hmin es
  · intro hmin e rest raw hfe hseq
    unfold processEntries
    rw [hfe]
    simp [hmin, hseq]
  · intro hmin es
    exact processEntries_no_minimal tc arch opts hmin es

/-- `sampleJEntry` with its sequence number raised to the db-minimal cutoff. -/
def sampleBigJEntry : JEntry :=
  ⟨1010000, [], [⟨"kaa", none, [], [], ["news1"]⟩],
   [⟨[], [], [], [], [], [], [], [], [], [], [⟨"mom", none, none⟩]⟩]⟩

/-- The normalized form of `sampleBigJEntry`. -/
def sampleBigRawEntry : RawEntry :=
  ⟨1010000, [], [⟨"kaa", false, [], [], ⟨.Primary, .Absent, .Absent, .Absent, 0⟩⟩],
   [⟨[], [], [], [], [], [], [], [], [], [], [⟨"mom", 0, 0⟩]⟩]⟩

/-- Witness for C8: with db-minimal, a first retained entry at the cutoff
stops the traversal with no visits at all; without db-minimal, the same list
is traversed as a plain collect. -/
theorem c8_truncation_witness :
    processEntries defaultTrans false ⟨true, true, true⟩ [sampleBigJEntry, sampleJEntry]
      = .ok [] ∧
    processEntries defaultTrans false ⟨false, false, false⟩ [sampleJEntry]
      = collectE (RawEntry.from_obj defaultTrans false ⟨false, false, false⟩) [sampleJEntry] :=
  ⟨(c8_truncation defaultTrans false ⟨true, true, true⟩).2.1 rfl sampleBigJEntry [sampleJEntry]
     sampleBigRawEntry rfl (by decide),
   (c8_truncation defaultTrans false ⟨false, false, false⟩).2.2 rfl [sampleJEntry]⟩

/-! ## Claim C9: defaults for absent optional attributes -/

/-- C9.  A gloss with no language attribute defaults to code "eng" (ordinal 0
of the gloss-language table) and survives exactly when English is an enabled
target language; a gloss with no type attribute defaults to the regular
translation type (ordinal 0); a loanword source with no attributes defaults to
language "eng", full (not partial) borrowing, and not wasei. -/
theorem c9_normalization_defaults (tc : TransConfig) (opts : Options) (t : String) :
    RawGloss.from_obj tc opts ⟨t, none, none⟩
      = .ok (if tc.eng then some ⟨t, 0, 0⟩ else none) ∧
    GlossLanguage.from_obj tc opts none = .ok (if tc.eng then some 0 else none) ∧
    RawLSource.from_obj opts ⟨t, none, none, none⟩ = .ok (some ⟨t, "eng", false, false⟩) := by
  refine ⟨?_, ?_, rfl⟩
  · cases heng : tc.eng <;>
      simp [RawGloss.from_obj, GlossLanguage.from_obj, optional_enum, from_code, fromCodeAux,
        allOf, glossLanguageVariants, vw, try_from_all, rankEnabled, heng, Except.toOption,
        glossTypeVariants, v]
  · cases heng : tc.eng <;>
      simp [GlossLanguage.from_obj, optional_enum, from_code, fromCodeAux, allOf,
        glossLanguageVariants, vw, try_from_all, rankEnabled, heng, Except.toOption]

/-! ## Claim C6: fatal build errors

The claim says *any* unrecognized enum / priority-marker / loanword token
aborts the build and yields no output.  That is false on the code: elements
dropped *before* parsing never reach the token.  `RawKanjiElement::from_obj`
(and the reading twin) return `None` when `!with_uncommon && p.is_empty()`
before touching `obj["i"]`, so an unknown `KanjiInfo` code inside such an
element is never parsed and the entry is normalized successfully. -/

/-- An entry whose kanji element carries the unrecognized info code "bogus"
but no priority markers (so the uncommon filter drops it before parsing). -/
def c6BadJEntry : JEntry :=
  ⟨1000002, [⟨"X", ["bogus"], []⟩], [⟨"kaa", none, [], [], ["news1"]⟩],
   [⟨[], [], [], [], [], [], [], [], [], [], [⟨"mom", none, none⟩]⟩]⟩

def c6BadRawEntry : RawEntry :=
  ⟨1000002, [], [⟨"kaa", false, [], [], ⟨.Primary, .Absent, .Absent, .Absent, 0⟩⟩],
   [⟨[], [], [], [], [], [], [], [], [], [], [⟨"mom", 0, 0⟩]⟩]⟩

/-- Counterexample to C6 as stated: "bogus" is not a recognized `KanjiInfo`
code, yet normalizing `c6BadJEntry` (default features) panics nowhere and
produces output. -/
theorem c6_fatal_errors_counterexample :
    from_code kanjiInfoVariants "bogus" = none ∧
    RawEntry.from_obj defaultTrans false ⟨false, false, false⟩ c6BadJEntry
      = .ok (some c6BadRawEntry) :=
  ⟨rfl, rfl⟩

theorem parse_prio_loop_step (acc : Priority) (m : String) (rest : List String) :
    (¬ ValidMarker m ∧ parse_prio_loop acc (m :: rest) = none) ∨
    (ValidMarker m ∧ ∃ acc', parse_prio_loop acc (m :: rest) = parse_prio_loop acc' rest) := by
  by_cases h1 : m = "news1"
  · subst h1
    exact .inr ⟨.inl rfl, { acc with news := merge_cprio acc.news .Primary }, rfl⟩
  · by_cases h2 : m = "news2"
    · subst h2
      exact .inr ⟨.inr (.inl rfl), { acc with news := merge_cprio acc.news .Secondary }, rfl⟩
    · by_cases h3 : m = "ichi1"
      · subst h3
        exact .inr ⟨.inr (.inr (.inl rfl)),
          { acc with ichimango := merge_cprio acc.ichimango .Primary }, rfl⟩
      · by_cases h4 : m = "ichi2"
        · subst h4
          exact .inr ⟨.inr (.inr (.inr (.inl rfl))),
            { acc with ichimango := merge_cprio acc.ichimango .Secondary }, rfl⟩
        · by_cases h5 : m = "gai1"
          · subst h5
            exact .inr ⟨.inr (.inr (.inr (.inr (.inl rfl)))),
              { acc with loanwords := merge_cprio acc.loanwords .Primary }, rfl⟩
          · by_cases h6 : m = "gai2"
            · subst h6
              exact .inr ⟨.inr (.inr (.inr (.inr (.inr (.inl rfl))))),
                { acc with loanwords := merge_cprio acc.loanwords .Secondary }, rfl⟩
            · by_cases h7 : m = "spec1"
              · subst h7
                exact .inr ⟨.inr (.inr (.inr (.inr (.inr (.inr (.inl rfl)))))),
                  { acc with additional := merge_cprio acc.additional .Primary }, rfl⟩
              · by_cases h8 : m = "spec2"
                · subst h8
                  exact .inr ⟨.inr (.inr (.inr (.inr (.inr (.inr (.inr (.inl rfl))))))),
                    { acc with additional := merge_cprio acc.additional .Secondary }, rfl⟩
                · cases hfb : parse_freq_bucket m with
                  | some bucket =>
                    refine .inr ⟨.inr (.inr (.inr (.inr (.inr (.inr (.inr (.inr (by simp [hfb])))))))),
                      { acc with
                        frequency_bucket :=
                          if acc.frequency_bucket = 0 ∨ acc.frequency_bucket > bucket then bucket
                          else acc.frequency_bucket }, ?_⟩
                    simp only [parse_prio_loop, h1, h2, h3, h4, h5, h6, h7, h8, if_false, hfb]
                  | none =>
                    refine .inl ⟨?_, ?_⟩
                    · intro hv
                      rcases hv with h | h | h | h | h | h | h | h | h
                      all_goals first
                        | exact absurd h (by assumption)
                        | simp [hfb] at h
                    · simp only [parse_prio_loop, h1, h2, h3, h4, h5, h6, h7, h8, if_false, hfb]

theorem parse_prio_loop_bad (markers : List String) (bad : String) (hmem : bad ∈ markers)
    (hbad : ¬ ValidMarker bad) : ∀ acc, parse_prio_loop acc markers = none := by
  induction markers with
  | nil => simp at hmem
  | cons m rest ih =>
    intro acc
    rcases parse_prio_loop_step acc m rest with ⟨_, hnone⟩ | ⟨hval, acc', heq⟩
    · exact hnone
    · have hbr : bad ∈ rest := by
        rcases List.mem_cons.mp hmem with he | he
        · exact absurd (he ▸ hval) hbad
        · exact he
      rw [heq]
      exact ih hbr acc'

theorem from_code_none_of_not_mem (vs : List EnumVariant) (c : String)
    (h : c ∉ vs.map EnumVariant.code) : from_code vs c = none := by
  have haux : ∀ k, fromCodeAux vs c k = none := by
    induction vs with
    | nil => intro k; rfl
    | cons v rest ih =>
      intro k
      have hc : v.code ≠ c := by
        intro he
        exact h (by simp [he.symm])
      have hrest : c ∉ rest.map EnumVariant.code := fun hm => h (by simp [hm])
      by_cases hv : v.enabled <;> simp [fromCodeAux, hv, hc, ih hrest]
  exact haux 0

theorem collectE_error_of_mem {α β : Type} (f : α → Except Err (Option β)) (xs : List α)
    (x : α) (hx : x ∈ xs) (e' : Err) (he : f x = .error e') :
    ∃ e, collectE f xs = .error e := by
  induction xs with
  | nil => simp at hx
  | cons y ys ih =>
    rcases List.mem_cons.mp hx with hxy | hxy
    · subst hxy
      exact ⟨e', by simp [collectE, he]⟩
    · obtain ⟨e, hrec⟩ := ih hxy
      cases hfy : f y with
      | error ey => exact ⟨ey, by simp [collectE, hfy]⟩
      | ok r => exact ⟨e, by simp [collectE, hfy, hrec]⟩

/-- C6 (amended).  Unrecognized tokens are fatal *when the element containing
them is parsed*: an unknown priority marker anywhere in a parsed element's
marker list, an unknown loanword-source type or wasei token, and an unknown
enum code (dialect, kanji/reading/sense info, topic, part of speech in its
full domain, gloss language in its full domain, gloss type) each abort with a
panic, and a panic inside a collected child propagates (shown for a kanji
element that is not dropped by the uncommon filter).  Elements dropped before
parsing — the counterexample — are the only escape. -/
theorem c6_fatal_errors_amended :
    (∀ markers bad, bad ∈ markers → ¬ ValidMarker bad → parse_prio markers = none) ∧
    (∀ (opts : Options) (o : JLSource) tbad, o.ls_type = some tbad → tbad ≠ "full" →
      tbad ≠ "part" → ∃ e, RawLSource.from_obj opts o = .error e) ∧
    (∀ (opts : Options) (o : JLSource) wbad, o.ls_type = none → o.wasei = some wbad →
      wbad ≠ "n" → wbad ≠ "y" → ∃ e, RawLSource.from_obj opts o = .error e) ∧
    (∀ (opts : Options) code, code ∉ dialectVariants.map EnumVariant.code →
      ∃ e, Dialect.from_obj opts code = .error e) ∧
    (∀ (opts : Options) code, code ∉ kanjiInfoVariants.map EnumVariant.code →
      ∃ e, KanjiInfo.from_obj opts code = .error e) ∧
    (∀ (opts : Options) code, code ∉ readingInfoVariants.map EnumVariant.code →
      ∃ e, ReadingInfo.from_obj opts code = .error e) ∧
    (∀ (opts : Options) code, code ∉ senseInfoVariants.map EnumVariant.code →
      ∃ e, SenseInfo.from_obj opts code = .error e) ∧
    (∀ (opts : Options) code, code ∉ senseTopicVariants.map EnumVariant.code →
      ∃ e, SenseTopic.from_obj opts code = .error e) ∧
    (∀ (arch : Bool) (opts : Options) code, code ∉ (posVariants arch).map EnumVariant.code →
      ∃ e, PartOfSpeech.from_obj arch opts code = .error e) ∧
    (∀ (tc : TransConfig) (opts : Options) code, code ∉ (glossLanguageVariants tc).map EnumVariant.code →
      ∃ e, GlossLanguage.from_obj tc opts (some code) = .error e) ∧
    (∀ (opts : Options) (og : JGloss) code, og.g_type = some code →
      code ∉ glossTypeVariants.map EnumVariant.code →
      (∀ tc, (try_from_all (glossLanguageVariants tc) 0).toOption ≠ none →
        ∃ e, RawGloss.from_obj tc opts { og with l := none } = .error e)) ∧
    (∀ (opts : Options) (o : JKanji), ¬ (opts.with_uncommon = false ∧ o.p.isEmpty) →
      (∃ c ∈ o.i, c ∉ kanjiInfoVariants.map EnumVariant.code) →
      ∃ e, RawKanjiElement.from_obj opts o = .error e) := by
  have hallOf_codes : ∀ vs : List EnumVariant, (allOf vs).map EnumVariant.code = vs.map EnumVariant.code := by
    intro vs
    simp [allOf]
  refine ⟨?_, ?_, ?_, ?_, ?_, ?_, ?_, ?_, ?_, ?_, ?_, ?_⟩
  · intro markers bad hmem hbad
    exact parse_prio_loop_bad markers bad hmem hbad _
  · intro opts o tbad hls hfull hpart
    refine ⟨"unknown ls_type: " ++ tbad, ?_⟩
    unfold RawLSource.from_obj
    rw [hls]
    all_goals try (split <;> simp_all)
  · intro opts o wbad hls hw hn hy
    refine ⟨"unknown ls_wasei: " ++ wbad, ?_⟩
    unfold RawLSource.from_obj RawLSource.parse_wasei
    rw [hls]
    all_goals try rw [hw]
    all_goals try (split <;> simp_all)
  · intro opts code h
    exact ⟨"unknown Dialect representation: " ++ code,
      by simp [Dialect.from_obj, required_enum, from_code_none_of_not_mem _ _ h]⟩
  · intro opts code h
    exact ⟨"unknown KanjiInfo representation: " ++ code,
      by simp [KanjiInfo.from_obj, required_enum, from_code_none_of_not_mem _ _ h]⟩
  · intro opts code h
    exact ⟨"unknown ReadingInfo representation: " ++ code,
      by simp [ReadingInfo.from_obj, required_enum, from_code_none_of_not_mem _ _ h]⟩
  · intro opts code h
    exact ⟨"unknown SenseInfo representation: " ++ code,
      by simp [SenseInfo.from_obj, required_enum, from_code_none_of_not_mem _ _ h]⟩
  · intro opts code h
    exact ⟨"unknown SenseTopic representation: " ++ code,
      by simp [SenseTopic.from_obj, required_enum, from_code_none_of_not_mem _ _ h]⟩
  · intro arch opts code h
    have h' : code ∉ (allOf (posVariants arch)).map EnumVariant.code := by
      rw [hallOf_codes]; exact h
    exact ⟨"unknown AllPartOfSpeech representation: " ++ code,
      by simp [PartOfSpeech.from_obj, optional_enum, from_code_none_of_not_mem _ _ h']⟩
  · intro tc opts code h
    have h' : code ∉ (allOf (glossLanguageVariants tc)).map EnumVariant.code := by
      rw [hallOf_codes]; exact h
    exact ⟨"unknown AllGlossLanguage representation: " ++ code,
      by simp [GlossLanguage.from_obj, optional_enum, from_code_none_of_not_mem _ _ h']⟩
  · intro opts og code hg h tc htc
    have hfc : from_code (allOf (glossLanguageVariants tc)) "eng" = some 0 := by
      simp [glossLanguageVariants, vw, allOf, from_code, fromCodeAux]
    have hlang : ∃ lg, GlossLanguage.from_obj tc opts none = .ok (some lg) := by
      rcases htoc : (try_from_all (glossLanguageVariants tc) 0).toOption with _ | lg
      · exact absurd htoc htc
      · exact ⟨lg, by simp [GlossLanguage.from_obj, optional_enum, hfc, htoc]⟩
    obtain ⟨lg, hlg⟩ := hlang
    refine ⟨"unknown GlossType representation: " ++ code, ?_⟩
    unfold RawGloss.from_obj
    simp only [show ({ og with l := none } : JGloss).l = none from rfl, hlg]
    simp [optional_enum, hg, from_code_none_of_not_mem _ _ h]
  · intro opts o hkeep ⟨c, hc, hbadc⟩
    have herr : KanjiInfo.from_obj opts c = .error ("unknown KanjiInfo representation: " ++ c) := by
      simp [KanjiInfo.from_obj, required_enum, from_code_none_of_not_mem _ _ hbadc]
    obtain ⟨e, hcoll⟩ := collectE_error_of_mem (KanjiInfo.from_obj opts) o.i c hc _ herr
    refine ⟨e, ?_⟩
    unfold RawKanjiElement.from_obj
    rw [if_neg hkeep, hcoll]

/-- Witness for C6's amended theorem, applying its parts at concrete bad
tokens. -/
theorem c6_fatal_errors_amended_witness :
    parse_prio ["news1", "bogus"] = none ∧
    (∃ e, RawLSource.from_obj ⟨false, false, false⟩ ⟨"x", none, some "half", none⟩ = .error e) ∧
    (∃ e, Dialect.from_obj ⟨false, false, false⟩ "bogus" = .error e) ∧
    (∃ e, RawKanjiElement.from_obj ⟨false, true, false⟩ ⟨"X", ["bogus"], []⟩ = .error e) := by
  refine ⟨?_, ?_, ?_, ?_⟩
  · exact c6_fatal_errors_amended.1 ["news1", "bogus"] "bogus" (by simp) (by decide)
  · exact c6_fatal_errors_amended.2.1 ⟨false, false, false⟩ ⟨"x", none, some "half", none⟩
      "half" rfl (by decide) (by decide)
  · exact c6_fatal_errors_amended.2.2.2.1 ⟨false, false, false⟩ "bogus" (by decide)
  · exact c6_fatal_errors_amended.2.2.2.2.2.2.2.2.2.2.2 ⟨false, true, false⟩ ⟨"X", ["bogus"], []⟩
      (by decide) ⟨"bogus", by simp, by decide⟩

/-! ## Priority payload codec

`impl EnumPayload for Priority` lives in `jmdict-enums/src/lib.rs`, which is
not among the provided sources (only the enum generator `build.rs` is). -/

/-- Modelled from the spec: the spec (§3) fixes `Priority` as four tier values
in Absent < Secondary < Primary plus a frequency bucket 0..48; its `EnumPayload`
impl (`jmdict-enums/src/lib.rs`, not under the provided sources) packs these
into one u32.  We model the tiers as a 2-bit field each and the bucket above
them, which is invertible — the property the codec relies on. -/
def PriorityInCorpus.to_u32 : PriorityInCorpus → Nat
  | .Absent => 0
  | .Secondary => 1
  | .Primary => 2

/-- Modelled from the spec: inverse of `PriorityInCorpus.to_u32` on its range
(values ≥ 3 do not occur in encoder output). -/
def PriorityInCorpus.from_u32 (n : Nat) : PriorityInCorpus :=
  match n with
  | 0 => .Absent
  | 1 => .Secondary
  | _ => .Primary

/-- Modelled from the spec: pack the four corpus tiers (2 bits each) and the
frequency bucket into one word. -/
def Priority.to_u32 (p : Priority) : Nat :=
  p.news.to_u32 + 4 * p.ichimango.to_u32 + 16 * p.loanwords.to_u32 +
    64 * p.additional.to_u32 + 256 * p.frequency_bucket

/-- Modelled from the spec: inverse of `Priority.to_u32`. -/
def Priority.from_u32 (n : Nat) : Priority :=
  ⟨PriorityInCorpus.from_u32 (n % 4), PriorityInCorpus.from_u32 (n / 4 % 4),
   PriorityInCorpus.from_u32 (n / 16 % 4), PriorityInCorpus.from_u32 (n / 64 % 4), n / 256⟩

theorem PriorityInCorpus.from_to (t : PriorityInCorpus) :
    PriorityInCorpus.from_u32 t.to_u32 = t := by
  cases t <;> rfl

theorem PriorityInCorpus.to_u32_lt (t : PriorityInCorpus) : t.to_u32 < 4 := by
  cases t <;> simp [PriorityInCorpus.to_u32]

theorem Priority.from_to_u32 (p : Priority) : Priority.from_u32 (Priority.to_u32 p) = p := by
  obtain ⟨n, i, l, a, b⟩ := p
  have hn := n.to_u32_lt
  have hi := i.to_u32_lt
  have hl := l.to_u32_lt
  have ha := a.to_u32_lt
  unfold Priority.to_u32 Priority.from_u32
  simp only []
  have e1 : (n.to_u32 + 4 * i.to_u32 + 16 * l.to_u32 + 64 * a.to_u32 + 256 * b) % 4
      = n.to_u32 := by omega
  have e2 : (n.to_u32 + 4 * i.to_u32 + 16 * l.to_u32 + 64 * a.to_u32 + 256 * b) / 4 % 4
      = i.to_u32 := by omega
  have e3 : (n.to_u32 + 4 * i.to_u32 + 16 * l.to_u32 + 64 * a.to_u32 + 256 * b) / 16 % 4
      = l.to_u32 := by omega
  have e4 : (n.to_u32 + 4 * i.to_u32 + 16 * l.to_u32 + 64 * a.to_u32 + 256 * b) / 64 % 4
      = a.to_u32 := by omega
  have e5 : (n.to_u32 + 4 * i.to_u32 + 16 * l.to_u32 + 64 * a.to_u32 + 256 * b) / 256
      = b := by omega
  rw [e1, e2, e3, e4, e5, PriorityInCorpus.from_to, PriorityInCorpus.from_to,
    PriorityInCorpus.from_to, PriorityInCorpus.from_to]

/-! ## Payload encoder (`build.rs`) -/

/-- `StoredRef`; the source's `end` field is a Lean keyword, named `stop`. -/
structure StoredRef where
  start : Nat
  stop : Nat
deriving DecidableEq, Repr

/-- `OmniBuffer`: the entry-offset table, the u32 word pool, and the UTF-8
text pool (a byte string, modelled as its character sequence — only lengths,
appends and slices at recorded boundaries occur). -/
structure OmniBuffer where
  entry_offsets : List Nat
  data : List Nat
  text : List Char
deriving DecidableEq, Repr

def OmniBuffer.push_str (ω : OmniBuffer) (s : String) : OmniBuffer × StoredRef :=
  if s.data.isEmpty then (ω, ⟨0, 0⟩)
  else ({ ω with text := ω.text ++ s.data }, ⟨ω.text.length, ω.text.length + s.data.length⟩)

def OmniBuffer.push_data (ω : OmniBuffer) (d : List Nat) : OmniBuffer × StoredRef :=
  if d.isEmpty then (ω, ⟨0, 0⟩)
  else ({ ω with data := ω.data ++ d }, ⟨ω.data.length, ω.data.length + d.length⟩)

/-- The render loop shared by `OmniBuffer::push_array` and the free
`push_array`: each item writes its fixed-width slice of `repr` (and may push
its own children into the buffer). -/
def encodeListWith {α : Type} (enc : OmniBuffer → α → OmniBuffer × List Nat) :
    OmniBuffer → List α → OmniBuffer × List Nat
  | ω, [] => (ω, [])
  | ω, x :: xs =>
    let r := enc ω x
    let rest := encodeListWith enc r.1 xs
    (rest.1, r.2 ++ rest.2)

/-- `OmniBuffer::push_array`. -/
def push_array {α : Type} (enc : OmniBuffer → α → OmniBuffer × List Nat) (ω : OmniBuffer)
    (xs : List α) : OmniBuffer × StoredRef :=
  if xs.isEmpty then (ω, ⟨0, 0⟩)
  else
    let r := encodeListWith enc ω xs
    r.1.push_data r.2

/-- The free `push_array` (build.rs line 137): renders into a local buffer
instead of the word pool and returns the buffer length after extending. -/
def push_array_into {α : Type} (enc : OmniBuffer → α → OmniBuffer × List Nat) (buf : List Nat)
    (ω : OmniBuffer) (xs : List α) : List Nat × OmniBuffer × Nat :=
  if xs.isEmpty then (buf, ω, buf.length)
  else
    let r := encodeListWith enc ω xs
    (buf ++ r.2, r.1, (buf ++ r.2).length)

/-- `ToPayload` for the single-ordinal enums (size 1). -/
def encodeEnumItem (ω : OmniBuffer) (val : Nat) : OmniBuffer × List Nat :=
  (ω, [to_u32 val])

/-- `ToPayload for &str` (size 2). -/
def encodeStrItem (ω : OmniBuffer) (s : String) : OmniBuffer × List Nat :=
  let r := ω.push_str s
  (r.1, [r.2.start, r.2.stop])

/-- `ToPayload for RawKanjiElement` (size 5). -/
def RawKanjiElement.encode_one (ω : OmniBuffer) (k : RawKanjiElement) : OmniBuffer × List Nat :=
  let r1 := ω.push_str k.keb
  let r2 := push_array encodeEnumItem r1.1 k.ke_inf
  (r2.1, [Priority.to_u32 k.ke_pri, r1.2.start, r1.2.stop, r2.2.start, r2.2.stop])

/-- `ToPayload for RawReadingElement` (size 5); `re_nokanji` and `re_restr`
are not encoded. -/
def RawReadingElement.encode_one (ω : OmniBuffer) (r : RawReadingElement) :
    OmniBuffer × List Nat :=
  let r1 := ω.push_str r.reb
  let r2 := push_array encodeEnumItem r1.1 r.re_inf
  (r2.1, [Priority.to_u32 r.re_pri, r1.2.start, r1.2.stop, r2.2.start, r2.2.stop])

/-- `ToPayload for RawLSource` (size 4): the two flags steal bits 28/29 of the
text-start word. -/
def RawLSource.encode_one (ω : OmniBuffer) (l : RawLSource) : OmniBuffer × List Nat :=
  let rt := ω.push_str l.text
  let rl := rt.1.push_str l.lang
  let w0 := rt.2.start
  let w0 := if l.is_part then w0 ||| 0x10000000 else w0
  let w0 := if l.is_wasei then w0 ||| 0x20000000 else w0
  (rl.1, [w0, rt.2.stop, rl.2.start, rl.2.stop])

/-- `ToPayload for RawGloss` (size 2): language and type ordinals in the top
4 bits of the two offset words. -/
def RawGloss.encode_one (ω : OmniBuffer) (g : RawGloss) : OmniBuffer × List Nat :=
  let r := ω.push_str g.text
  (r.1, [r.2.start ||| (to_u32 g.lang <<< 28), r.2.stop ||| (to_u32 g.g_type <<< 28)])

/-- `ToPayload for RawSense` (size 5): the 11 child arrays are rendered into
one local buffer, pushed as one region, and the ten interior split offsets are
packed as 8-bit fields into words 2, 3 and 4. -/
def RawSense.encode_one (ω : OmniBuffer) (s : RawSense) : OmniBuffer × List Nat :=
  let (buf, ω, o1) := push_array_into encodeStrItem [] ω s.stagk
  let (buf, ω, o2) := push_array_into encodeStrItem buf ω s.stagr
  let (buf, ω, o3) := push_array_into encodeEnumItem buf ω s.pos
  let (buf, ω, o4) := push_array_into encodeStrItem buf ω s.xref
  let (buf, ω, o5) := push_array_into encodeStrItem buf ω s.ant
  let (buf, ω, o6) := push_array_into encodeEnumItem buf ω s.field
  let (buf, ω, o7) := push_array_into encodeEnumItem buf ω s.misc
  let (buf, ω, o8) := push_array_into encodeStrItem buf ω s.s_inf
  let (buf, ω, o9) := push_array_into RawLSource.encode_one buf ω s.lsource
  let (buf, ω, o10) := push_array_into encodeEnumItem buf ω s.dial
  let (buf, ω, _) := push_array_into RawGloss.encode_one buf ω s.gloss
  let r := ω.push_data buf
  (r.1, [r.2.start, r.2.stop,
    o1 + (o2 <<< 8) + (o3 <<< 16) + (o4 <<< 24),
    o5 + (o6 <<< 8) + (o7 <<< 16) + (o8 <<< 24),
    o9 + (o10 <<< 8)])

/-- `ToPayload for RawEntry` (size 4): the 3 child arrays are rendered into
one local buffer, pushed as one region, and the two split offsets are packed
as 16-bit halves of word 2. -/
def RawEntry.encode_one (ω : OmniBuffer) (e : RawEntry) : OmniBuffer × List Nat :=
  let (buf, ω, offset1) := push_array_into RawKanjiElement.encode_one [] ω e.k_ele
  let (buf, ω, offset2) := push_array_into RawReadingElement.encode_one buf ω e.r_ele
  let (buf, ω, _) := push_array_into RawSense.encode_one buf ω e.sense
  let r := ω.push_data buf
  (r.1, [r.2.start, r.2.stop, offset1 + (offset2 <<< 16), e.ent_seq])

/-- `Visitor for OmniBuffer::process_entry`: render the 4-word entry header,
push it, and record its offset in the entry-offset table. -/
def process_entry (ω : OmniBuffer) (e : RawEntry) : OmniBuffer :=
  let r0 := RawEntry.encode_one ω e
  let r := r0.1.push_data r0.2
  { r.1 with entry_offsets := r.1.entry_offsets ++ [r.2.start] }

/-- The whole build: visit each normalized entry in order, starting from an
empty buffer. -/
def encodeEntries (es : List RawEntry) : OmniBuffer :=
  es.foldl process_entry ⟨[], [], []⟩

/-! ## Zero-copy reader (`src/payload.rs`)

The reader's `Range<T, N>` iterators are materialized as lists (`next()` until
exhaustion); the `from_u32` panic on a foreign ordinal is `none`, which
propagates to the decoded entry. -/

/-- `&ALL_DATA[off .. off+n]`. -/
def wordsAt (data : List Nat) (off n : Nat) : List Nat :=
  (data.drop off).take n

/-- `get_str`: slice `ALL_TEXTS[start..end]`. -/
def get_str (text : List Char) (a b : Nat) : String :=
  String.mk ((text.drop a).take (b - a))

/-- One `Range::next()` loop, with `e - s` as decreasing fuel (each step
advances the cursor by `N ≥ 1`). -/
def rangeNextFuel {β : Type} (dec : List Nat → Option β) (N : Nat) (data : List Nat) :
    Nat → Nat → Nat → Option (List β)
  | 0, s, e => if s < e then none else some []
  | fuel + 1, s, e =>
    if s < e then
      match dec (wordsAt data s N) with
      | none => none
      | some x =>
        match rangeNextFuel dec N data fuel (s + N) e with
        | none => none
        | some xs => some (x :: xs)
    else some []

/-- The list of items of `Range::new(s, e)` for an `N`-word item type. -/
def decodeRange {β : Type} (dec : List Nat → Option β) (N : Nat) (data : List Nat)
    (s e : Nat) : Option (List β) :=
  rangeNextFuel dec N data (e - s) s e

/-- The enabled-variant counts the reader's `from_u32` calls check against
(one per enum domain appearing in the payload). -/
structure EnumCounts where
  kInfo : Nat
  rInfo : Nat
  pos : Nat
  topic : Nat
  sInfo : Nat
  dial : Nat
  gLang : Nat
  gType : Nat
deriving DecidableEq, Repr

def countsOf (tc : TransConfig) (arch : Bool) : EnumCounts :=
  ⟨numEnabled kanjiInfoVariants, numEnabled readingInfoVariants, numEnabled (posVariants arch),
   numEnabled senseTopicVariants, numEnabled senseInfoVariants, numEnabled dialectVariants,
   numEnabled (glossLanguageVariants tc), numEnabled glossTypeVariants⟩

/-- Decoded views (the `Entry` / `KanjiElement` / ... structs of `src/lib.rs`,
with the child iterators materialized). -/
structure KanjiElement where
  priority : Priority
  text : String
  infos : List Nat
deriving DecidableEq, Repr

structure ReadingElement where
  priority : Priority
  text : String
  infos : List Nat
deriving DecidableEq, Repr

/-- Decoded loanword source; the partial-borrowing flag of the source is
named is_partial, shortened here to `is_part`. -/
structure LoanwordSource where
  text : String
  language : String
  is_part : Bool
  is_wasei : Bool
deriving DecidableEq, Repr

structure Gloss where
  language : Nat
  text : String
  gloss_type : Nat
deriving DecidableEq, Repr

structure Sense where
  applicable_kanji_elements : List String
  applicable_reading_elements : List String
  parts_of_speech : List Nat
  cross_references : List String
  antonyms : List String
  topics : List Nat
  infos : List Nat
  freetext_infos : List String
  loanword_sources : List LoanwordSource
  dialects : List Nat
  glosses : List Gloss
deriving DecidableEq, Repr

structure Entry where
  number : Nat
  kanji_elements : List KanjiElement
  reading_elements : List ReadingElement
  senses : List Sense
deriving DecidableEq, Repr

/-- `FromPayload<1>` for an enum ordinal. -/
def decodeEnumItem (m : Nat) (ws : List Nat) : Option Nat :=
  match ws with
  | [w0] => from_u32 m w0
  | _ => none

/-- `FromPayload<2> for &str`. -/
def decodeStrItem (text : List Char) (ws : List Nat) : Option String :=
  match ws with
  | [w0, w1] => some (get_str text w0 w1)
  | _ => none

/-- `FromPayload<5> for KanjiElement`. -/
def decodeKanji (m : Nat) (data : List Nat) (text : List Char) (ws : List Nat) :
    Option KanjiElement :=
  match ws with
  | [w0, w1, w2, w3, w4] =>
    match decodeRange (decodeEnumItem m) 1 data w3 w4 with
    | none => none
    | some infos => some ⟨Priority.from_u32 w0, get_str text w1 w2, infos⟩
  | _ => none

/-- `FromPayload<5> for ReadingElement`. -/
def decodeReading (m : Nat) (data : List Nat) (text : List Char) (ws : List Nat) :
    Option ReadingElement :=
  match ws with
  | [w0, w1, w2, w3, w4] =>
    match decodeRange (decodeEnumItem m) 1 data w3 w4 with
    | none => none
    | some infos => some ⟨Priority.from_u32 w0, get_str text w1 w2, infos⟩
  | _ => none

/-- `FromPayload<4> for LoanwordSource`: mask the two flag bits out of word 0
before slicing the text pool. -/
def decodeLSource (text : List Char) (ws : List Nat) : Option LoanwordSource :=
  match ws with
  | [w0, w1, w2, w3] =>
    some ⟨get_str text (w0 &&& 0x0FFFFFFF) w1, get_str text w2 w3,
      (w0 &&& 0x10000000) == 0x10000000, (w0 &&& 0x20000000) == 0x20000000⟩
  | _ => none

/-- `FromPayload<2> for Gloss`: the two ordinals sit in the top 4 bits of the
two offset words. -/
def decodeGloss (mLang mType : Nat) (text : List Char) (ws : List Nat) : Option Gloss :=
  match ws with
  | [w0, w1] =>
    match from_u32 mLang ((w0 &&& 0xF0000000) >>> 28),
        from_u32 mType ((w1 &&& 0xF0000000) >>> 28) with
    | some lang, some gt =>
      some ⟨lang, get_str text (w0 &&& 0x0FFFFFFF) (w1 &&& 0x0FFFFFFF), gt⟩
    | _, _ => none
  | _ => none

/-- The ten interior split points recovered by `FromPayload<5> for Sense` from
words 2, 3 and 4 (mid1 .. mid10 of the source, in order). -/
def senseMids (start w2 w3 w4 : Nat) : List Nat :=
  [start + (w2 &&& 0x000000FF),
   start + ((w2 &&& 0x0000FF00) >>> 8),
   start + ((w2 &&& 0x00FF0000) >>> 16),
   start + ((w2 &&& 0xFF000000) >>> 24),
   start + (w3 &&& 0x000000FF),
   start + ((w3 &&& 0x0000FF00) >>> 8),
   start + ((w3 &&& 0x00FF0000) >>> 16),
   start + ((w3 &&& 0xFF000000) >>> 24),
   start + (w4 &&& 0x000000FF),
   start + ((w4 &&& 0x0000FF00) >>> 8)]

/-- `FromPayload<5> for Sense`. -/
def decodeSense (cnt : EnumCounts) (data : List Nat) (text : List Char) (ws : List Nat) :
    Option Sense :=
  match ws with
  | [w0, w1, w2, w3, w4] =>
    match senseMids w0 w2 w3 w4 with
    | [mid1, mid2, mid3, mid4, mid5, mid6, mid7, mid8, mid9, mid10] => do
      let stagk ← decodeRange (decodeStrItem text) 2 data w0 mid1
      let stagr ← decodeRange (decodeStrItem text) 2 data mid1 mid2
      let pos ← decodeRange (decodeEnumItem cnt.pos) 1 data mid2 mid3
      let xref ← decodeRange (decodeStrItem text) 2 data mid3 mid4
      let ant ← decodeRange (decodeStrItem text) 2 data mid4 mid5
      let topics ← decodeRange (decodeEnumItem cnt.topic) 1 data mid5 mid6
      let infos ← decodeRange (decodeEnumItem cnt.sInfo) 1 data mid6 mid7
      let freetext ← decodeRange (decodeStrItem text) 2 data mid7 mid8
      let lsources ← decodeRange (decodeLSource text) 4 data mid8 mid9
      let dials ← decodeRange (decodeEnumItem cnt.dial) 1 data mid9 mid10
      let glosses ← decodeRange (decodeGloss cnt.gLang cnt.gType text) 2 data mid10 w1
      pure ⟨stagk, stagr, pos, xref, ant, topics, infos, freetext, lsources, dials, glosses⟩
    | _ => none
  | _ => none

/-- The two 16-bit halves of the entry's split word. -/
def entrySplitLow (w2 : Nat) : Nat := w2 &&& 0x0000FFFF

def entrySplitHigh (w2 : Nat) : Nat := (w2 &&& 0xFFFF0000) >>> 16

/-- The body of `get_entry` once the 4 header words are read. -/
def decodeEntryWords (cnt : EnumCounts) (data : List Nat) (text : List Char) (ws : List Nat) :
    Option Entry :=
  match ws with
  | [w0, w1, w2, w3] => do
    let mid1 := w0 + entrySplitLow w2
    let mid2 := w0 + entrySplitHigh w2
    let ks ← decodeRange (decodeKanji cnt.kInfo data text) 5 data w0 mid1
    let rs ← decodeRange (decodeReading cnt.rInfo data text) 5 data mid1 mid2
    let ss ← decodeRange (decodeSense cnt data text) 5 data mid2 w1
    pure ⟨w3, ks, rs, ss⟩
  | _ => none

def entry_count (ω : OmniBuffer) : Nat := ω.entry_offsets.length

/-- `get_entry(idx)`: look up the offset, read the 4-word header, unpack the
split word and build the entry view. -/
def get_entry (cnt : EnumCounts) (ω : OmniBuffer) (idx : Nat) : Option Entry :=
  match ω.entry_offsets.get? idx with
  | none => none
  | some offset => decodeEntryWords cnt ω.data ω.text (wordsAt ω.data offset 4)

/-- The `entries()` iterator, materialized. -/
def entriesList (cnt : EnumCounts) (ω : OmniBuffer) : List (Option Entry) :=
  (List.range (entry_count ω)).map (get_entry cnt ω)

/-! Views of normalized records, for stating the round trip. -/

def RawKanjiElement.toView (k : RawKanjiElement) : KanjiElement :=
  ⟨k.ke_pri, k.keb, k.ke_inf⟩

def RawReadingElement.toView (r : RawReadingElement) : ReadingElement :=
  ⟨r.re_pri, r.reb, r.re_inf⟩

def RawLSource.toView (l : RawLSource) : LoanwordSource :=
  ⟨l.text, l.lang, l.is_part, l.is_wasei⟩

def RawGloss.toView (g : RawGloss) : Gloss :=
  ⟨g.lang, g.text, g.g_type⟩

def RawSense.toView (s : RawSense) : Sense :=
  ⟨s.stagk, s.stagr, s.pos, s.xref, s.ant, s.field, s.misc, s.s_inf,
   s.lsource.map RawLSource.toView, s.dial, s.gloss.map RawGloss.toView⟩

def RawEntry.toView (e : RawEntry) : Entry :=
  ⟨e.ent_seq, e.k_ele.map RawKanjiElement.toView, e.r_ele.map RawReadingElement.toView,
   e.sense.map RawSense.toView⟩

/-! Size-ceiling conditions under which the bit-packed fields are exact (the
encoder exploits them; the source documents them as invariants of the real
dataset). -/

/-- Total word count of the first ten child arrays of a sense (the largest
split offset `o10`). -/
def RawSense.splitCeiling (s : RawSense) : Nat :=
  2 * s.stagk.length + 2 * s.stagr.length + s.pos.length + 2 * s.xref.length +
    2 * s.ant.length + s.field.length + s.misc.length + 2 * s.s_inf.length +
    4 * s.lsource.length + s.dial.length

def RawKanjiElement.Valid (cnt : EnumCounts) (k : RawKanjiElement) : Prop :=
  ∀ x ∈ k.ke_inf, x < cnt.kInfo

def RawReadingElement.Valid (cnt : EnumCounts) (r : RawReadingElement) : Prop :=
  ∀ x ∈ r.re_inf, x < cnt.rInfo

def RawSense.Valid (cnt : EnumCounts) (s : RawSense) : Prop :=
  (∀ x ∈ s.pos, x < cnt.pos) ∧ (∀ x ∈ s.field, x < cnt.topic) ∧
    (∀ x ∈ s.misc, x < cnt.sInfo) ∧ (∀ x ∈ s.dial, x < cnt.dial) ∧
    (∀ g ∈ s.gloss, g.lang < cnt.gLang ∧ g.g_type < cnt.gType) ∧
    s.splitCeiling < 256

def RawEntry.Valid (cnt : EnumCounts) (e : RawEntry) : Prop :=
  (∀ k ∈ e.k_ele, k.Valid cnt) ∧ (∀ r ∈ e.r_ele, r.Valid cnt) ∧
    (∀ s ∈ e.sense, s.Valid cnt) ∧ 5 * e.k_ele.length + 5 * e.r_ele.length < 65536

/-! ## Round-trip machinery

`Grows a b`: buffer `b` extends buffer `a` by appends only (the pools are
append-only during build).  `sliceIs data off ws`: the words `ws` sit at
offset `off` of the pool, entirely within it. -/

def Grows (a b : OmniBuffer) : Prop :=
  (∃ d, b.data = a.data ++ d) ∧ (∃ t, b.text = a.text ++ t)

theorem grows_refl (ω : OmniBuffer) : Grows ω ω :=
  ⟨⟨[], by simp⟩, ⟨[], by simp⟩⟩

theorem grows_trans {a b c : OmniBuffer} (h1 : Grows a b) (h2 : Grows b c) : Grows a c := by
  obtain ⟨⟨d1, hd1⟩, ⟨t1, ht1⟩⟩ := h1
  obtain ⟨⟨d2, hd2⟩, ⟨t2, ht2⟩⟩ := h2
  exact ⟨⟨d1 ++ d2, by simp [hd2, hd1]⟩, ⟨t1 ++ t2, by simp [ht2, ht1]⟩⟩

def sliceIs (data : List Nat) (off : Nat) (ws : List Nat) : Prop :=
  off + ws.length ≤ data.length ∧ (data.drop off).take ws.length = ws

theorem sliceIs_grow {a b : OmniBuffer} (h : Grows a b) {off : Nat} {ws : List Nat}
    (hs : sliceIs a.data off ws) : sliceIs b.data off ws := by
  obtain ⟨⟨d, hd⟩, _⟩ := h
  obtain ⟨hb, he⟩ := hs
  constructor
  · rw [hd]
    simp
    omega
  · rw [hd, List.drop_append_of_le_length (by omega),
      List.take_append_of_le_length (by simp; omega), he]

theorem sliceIs_split {data : List Nat} {off : Nat} {xs ys : List Nat}
    (h : sliceIs data off (xs ++ ys)) :
    sliceIs data off xs ∧ sliceIs data (off + xs.length) ys := by
  obtain ⟨hb, he⟩ := h
  simp only [List.length_append] at hb he
  refine ⟨⟨by omega, ?_⟩, ⟨by omega, ?_⟩⟩
  · have h1 := congrArg (List.take xs.length) he
    rw [List.take_take, Nat.min_eq_left (Nat.le_add_right _ _), List.take_left] at h1
    exact h1
  · have h2 := congrArg (List.drop xs.length) he
    rw [List.drop_take, Nat.add_sub_cancel_left, List.drop_left, List.drop_drop] at h2
    exact h2

theorem wordsAt_of_sliceIs {data : List Nat} {off : Nat} {ws : List Nat}
    (h : sliceIs data off ws) : wordsAt data off ws.length = ws :=
  h.2

theorem push_data_spec (ω : OmniBuffer) (d : List Nat) (hne : ¬ d.isEmpty) :
    (ω.push_data d).2.start = ω.data.length ∧
    (ω.push_data d).2.stop = ω.data.length + d.length ∧
    (ω.push_data d).1.data = ω.data ++ d ∧
    (ω.push_data d).1.text = ω.text ∧
    (ω.push_data d).1.entry_offsets = ω.entry_offsets ∧
    sliceIs (ω.push_data d).1.data ω.data.length d ∧
    Grows ω (ω.push_data d).1 := by
  have hd : d.isEmpty = false := by simpa using hne
  have hpush : ω.push_data d
      = ({ ω with data := ω.data ++ d }, ⟨ω.data.length, ω.data.length + d.length⟩) := by
    simp [OmniBuffer.push_data, hd]
  rw [hpush]
  refine ⟨rfl, rfl, rfl, rfl, rfl, ⟨by simp, ?_⟩, ⟨⟨d, rfl⟩, ⟨[], by simp⟩⟩⟩
  simp only []
  rw [List.drop_left, List.take_length]

/-- What `push_str` guarantees: the buffer only grows (text only), and the
returned range slices back to the pushed string out of any further-grown
buffer. -/
theorem push_str_spec (ω : OmniBuffer) (s : String) :
    Grows ω (ω.push_str s).1 ∧ (ω.push_str s).1.data = ω.data ∧
    (ω.push_str s).1.entry_offsets = ω.entry_offsets ∧
    (ω.push_str s).2.stop = (ω.push_str s).2.start + s.data.length ∧
    (ω.push_str s).2.stop ≤ (ω.push_str s).1.text.length ∧
    (∀ ωf, Grows (ω.push_str s).1 ωf →
      get_str ωf.text (ω.push_str s).2.start (ω.push_str s).2.stop = s) := by
  obtain ⟨sd⟩ := s
  by_cases hs : sd.isEmpty
  · have hsd : sd = [] := by simpa [List.isEmpty_iff] using hs
    subst hsd
    have hpush : ω.push_str (String.mk []) = (ω, ⟨0, 0⟩) := rfl
    rw [hpush]
    refine ⟨grows_refl ω, rfl, rfl, rfl, by simp, ?_⟩
    intro ωf _
    simp [get_str]
  · have hs' : sd.isEmpty = false := by simpa using hs
    have hpush : ω.push_str (String.mk sd)
        = ({ ω with text := ω.text ++ sd }, ⟨ω.text.length, ω.text.length + sd.length⟩) := by
      simp [OmniBuffer.push_str, hs']
    rw [hpush]
    refine ⟨⟨⟨[], by simp⟩, ⟨sd, rfl⟩⟩, rfl, rfl, rfl, by simp, ?_⟩
    intro ωf hgrow
    obtain ⟨_, ⟨t, ht⟩⟩ := hgrow
    simp only at ht
    unfold get_str
    rw [ht, List.append_assoc, List.drop_left, Nat.add_sub_cancel_left,
      List.take_append_of_le_length (le_refl _), List.take_length]

/-- `m <<< k >>> k`-style extraction through a shifted mask. -/
theorem mask_shift_extract (x m k : Nat) : (x &&& (m <<< k)) >>> k = (x >>> k) &&& m := by
  rw [and_shift_mask, shiftLeft_shiftRight_cancel]

theorem mask_low8 (x : Nat) : x &&& 0x000000FF = x % 256 := by
  have h : (0x000000FF : Nat) = 2 ^ 8 - 1 := by norm_num
  rw [h, and_low_mask]
  all_goals norm_num

theorem mask_mid8_8 (x : Nat) : (x &&& 0x0000FF00) >>> 8 = x / 256 % 256 := by
  have h : (0x0000FF00 : Nat) = 0x000000FF <<< 8 := by norm_num [Nat.shiftLeft_eq]
  rw [h, mask_shift_extract, mask_low8, Nat.shiftRight_eq_div_pow]

theorem mask_mid8_16 (x : Nat) : (x &&& 0x00FF0000) >>> 16 = x / 65536 % 256 := by
  have h : (0x00FF0000 : Nat) = 0x000000FF <<< 16 := by norm_num [Nat.shiftLeft_eq]
  rw [h, mask_shift_extract, mask_low8, Nat.shiftRight_eq_div_pow]

theorem mask_mid8_24 (x : Nat) : (x &&& 0xFF000000) >>> 24 = x / 16777216 % 256 := by
  have h : (0xFF000000 : Nat) = 0x000000FF <<< 24 := by norm_num [Nat.shiftLeft_eq]
  rw [h, mask_shift_extract, mask_low8, Nat.shiftRight_eq_div_pow]

theorem mask_low16 (x : Nat) : x &&& 0x0000FFFF = x % 65536 := by
  have h : (0x0000FFFF : Nat) = 2 ^ 16 - 1 := by norm_num
  rw [h, and_low_mask]
  all_goals norm_num

theorem mask_high16 (x : Nat) : (x &&& 0xFFFF0000) >>> 16 = x / 65536 % 65536 := by
  have h : (0xFFFF0000 : Nat) = 0x0000FFFF <<< 16 := by norm_num [Nat.shiftLeft_eq]
  rw [h, mask_shift_extract, mask_low16, Nat.shiftRight_eq_div_pow]

/-- The entry split word recovers both 16-bit halves. -/
theorem entrySplit_packed (o1 o2 : Nat) (h1 : o1 < 65536) (h2 : o2 < 65536) :
    entrySplitLow (o1 + (o2 <<< 16)) = o1 ∧ entrySplitHigh (o1 + (o2 <<< 16)) = o2 := by
  unfold entrySplitLow entrySplitHigh
  rw [mask_low16, mask_high16]
  simp only [Nat.shiftLeft_eq, show (2 : Nat) ^ 16 = 65536 from by norm_num]
  exact ⟨by omega, by omega⟩

/-- The three sense split words recover all ten 8-bit fields. -/
theorem senseMids_packed (st o1 o2 o3 o4 o5 o6 o7 o8 o9 o10 : Nat)
    (h1 : o1 < 256) (h2 : o2 < 256) (h3 : o3 < 256) (h4 : o4 < 256) (h5 : o5 < 256)
    (h6 : o6 < 256) (h7 : o7 < 256) (h8 : o8 < 256) (h9 : o9 < 256) (h10 : o10 < 256) :
    senseMids st (o1 + (o2 <<< 8) + (o3 <<< 16) + (o4 <<< 24))
        (o5 + (o6 <<< 8) + (o7 <<< 16) + (o8 <<< 24)) (o9 + (o10 <<< 8))
      = [st + o1, st + o2, st + o3, st + o4, st + o5, st + o6, st + o7, st + o8,
         st + o9, st + o10] := by
  unfold senseMids
  rw [mask_low8, mask_mid8_8, mask_mid8_16, mask_mid8_24, mask_low8, mask_mid8_8,
    mask_mid8_16, mask_mid8_24, mask_low8, mask_mid8_8]
  simp only [Nat.shiftLeft_eq, show (2 : Nat) ^ 8 = 256 from by norm_num,
    show (2 : Nat) ^ 16 = 65536 from by norm_num,
    show (2 : Nat) ^ 24 = 16777216 from by norm_num, List.cons.injEq, and_true]
  refine ⟨?_, ?_, ?_, ?_, ?_, ?_, ?_, ?_, ?_, ?_⟩ <;> (congr 1; omega)

theorem rangeNextFuel_irrel {β : Type} (dec : List Nat → Option β) (N : Nat) (hN : 0 < N)
    (data : List Nat) :
    ∀ fuel1 fuel2 s e, e - s ≤ fuel1 → e - s ≤ fuel2 →
      rangeNextFuel dec N data fuel1 s e = rangeNextFuel dec N data fuel2 s e := by
  intro fuel1
  induction fuel1 with
  | zero =>
    intro fuel2 s e h1 h2
    have hse : ¬ s < e := by omega
    cases fuel2 <;> simp [rangeNextFuel, hse]
  | succ f1 ih =>
    intro fuel2 s e h1 h2
    cases fuel2 with
    | zero =>
      have hse : ¬ s < e := by omega
      simp [rangeNextFuel, hse]
    | succ f2 =>
      by_cases hse : s < e
      · simp only [rangeNextFuel, hse, if_true]
        rw [ih f2 (s + N) e (by omega) (by omega)]
      · simp [rangeNextFuel, hse]

theorem decodeRange_nil {β : Type} (dec : List Nat → Option β) (N : Nat) (data : List Nat)
    (s e : Nat) (h : e ≤ s) : decodeRange dec N data s e = some [] := by
  unfold decodeRange
  have he : e - s = 0 := by omega
  rw [he]
  simp [rangeNextFuel, Nat.not_lt.mpr h]

theorem decodeRange_cons {β : Type} (dec : List Nat → Option β) (N : Nat) (hN : 0 < N)
    (data : List Nat) (s e : Nat) (h : s < e) :
    decodeRange dec N data s e =
      match dec (wordsAt data s N) with
      | none => none
      | some x =>
        match decodeRange dec N data (s + N) e with
        | none => none
        | some xs => some (x :: xs) := by
  unfold decodeRange
  obtain ⟨f, hf⟩ : ∃ f, e - s = f + 1 := ⟨e - s - 1, by omega⟩
  rw [hf]
  simp only [rangeNextFuel, h, if_true]
  rw [rangeNextFuel_irrel dec N hN data f (e - (s + N)) (s + N) e (by omega) (by omega)]

theorem grows_text_le {a b : OmniBuffer} (h : Grows a b) : a.text.length ≤ b.text.length := by
  obtain ⟨_, ⟨t, ht⟩⟩ := h
  simp [ht]

theorem grows_data_le {a b : OmniBuffer} (h : Grows a b) : a.data.length ≤ b.data.length := by
  obtain ⟨⟨d, hd⟩, _⟩ := h
  simp [hd]

/-- Round-trip contract of one `ToPayload`/`FromPayload` item pair against a
final buffer `ωf`: encoding emits exactly `N` words, only grows the buffer,
and once the buffer has grown to `ωf` the emitted words decode back to the
item's view. -/
def ItemRT {α β : Type} (N : Nat) (enc : OmniBuffer → α → OmniBuffer × List Nat)
    (dec : List Nat → Option β) (view : α → β) (P : α → Prop) (ωf : OmniBuffer) : Prop :=
  ∀ ω x, P x →
    (enc ω x).2.length = N ∧ Grows ω (enc ω x).1 ∧
    (Grows (enc ω x).1 ωf → dec (enc ω x).2 = some (view x))

/-- The contract lifts from items to rendered arrays: the concatenated
representation has length `N·|xs|`, and wherever it sits in the final word
pool, iterating `Range(s, s + N·|xs|)` decodes the original list. -/
theorem encodeList_rt {α β : Type} (N : Nat) (hN : 0 < N)
    (enc : OmniBuffer → α → OmniBuffer × List Nat) (dec : List Nat → Option β) (view : α → β)
    (P : α → Prop) (ωf : OmniBuffer) (hitem : ItemRT N enc dec view P ωf) :
    ∀ (xs : List α), (∀ x ∈ xs, P x) → ∀ ω : OmniBuffer,
      (encodeListWith enc ω xs).2.length = N * xs.length ∧
      Grows ω (encodeListWith enc ω xs).1 ∧
      (∀ s, Grows (encodeListWith enc ω xs).1 ωf →
        sliceIs ωf.data s (encodeListWith enc ω xs).2 →
        decodeRange dec N ωf.data s (s + N * xs.length) = some (xs.map view)) := by
  intro xs
  induction xs with
  | nil =>
    intro _ ω
    refine ⟨by simp [encodeListWith], grows_refl _, ?_⟩
    intro s _ _
    simp only [List.length_nil, Nat.mul_zero, Nat.add_zero, List.map_nil]
    exact decodeRange_nil dec N ωf.data s s (le_refl s)
  | cons x xs ih =>
    intro hP ω
    have hPx : P x := hP x (by simp)
    have hPxs : ∀ y ∈ xs, P y := fun y hy => hP y (by simp [hy])
    obtain ⟨hlen1, hgrow1, hdec1⟩ := hitem ω x hPx
    obtain ⟨hlen2, hgrow2, hdec2⟩ := ih hPxs (enc ω x).1
    have hunf : encodeListWith enc ω (x :: xs)
        = ((encodeListWith enc (enc ω x).1 xs).1,
           (enc ω x).2 ++ (encodeListWith enc (enc ω x).1 xs).2) := rfl
    rw [hunf]
    refine ⟨by simp only [List.length_append, List.length_cons, hlen1, hlen2, Nat.mul_succ]; omega,
      grows_trans hgrow1 hgrow2, ?_⟩
    intro s hgrowf hslice
    obtain ⟨hsl1, hsl2⟩ := sliceIs_split hslice
    rw [hlen1] at hsl2
    have hpos : 0 < N * (x :: xs).length := Nat.mul_pos hN (by simp)
    rw [decodeRange_cons dec N hN ωf.data s (s + N * (x :: xs).length) (by omega)]
    have hw : wordsAt ωf.data s N = (enc ω x).2 := by
      rw [← hlen1]
      exact wordsAt_of_sliceIs hsl1
    rw [hw, hdec1 (grows_trans hgrow2 hgrowf)]
    have hrec : decodeRange dec N ωf.data (s + N) (s + N * (x :: xs).length)
        = some (xs.map view) := by
      have h := hdec2 (s + N) hgrowf hsl2
      rw [show s + N + N * xs.length = s + N * (x :: xs).length by
        simp [List.length_cons, Nat.mul_succ]; omega] at h
      exact h
    rw [hrec]
    simp

/-- `push_data` always returns a range that slices back to the pushed words
from any grown buffer (for empty input the canonical `(0,0)` range is an
empty slice). -/
theorem push_data_rt (ω : OmniBuffer) (d : List Nat) :
    (ω.push_data d).2.stop = (ω.push_data d).2.start + d.length ∧
    Grows ω (ω.push_data d).1 ∧
    (∀ ωf, Grows (ω.push_data d).1 ωf → sliceIs ωf.data (ω.push_data d).2.start d) := by
  by_cases hd : d.isEmpty
  · have hdn : d = [] := by simpa [List.isEmpty_iff] using hd
    subst hdn
    have hpush : ω.push_data [] = (ω, ⟨0, 0⟩) := rfl
    rw [hpush]
    exact ⟨rfl, grows_refl ω, fun ωf _ => ⟨by simp, rfl⟩⟩
  · obtain ⟨hstart, hstop, hdata, htext, hoff, hslice, hgrow⟩ := push_data_spec ω d hd
    refine ⟨by rw [hstop, hstart], hgrow, ?_⟩
    intro ωf hf
    rw [hstart]
    exact sliceIs_grow hf (hstart ▸ hslice)

/-- Round-trip contract of `OmniBuffer::push_array`. -/
theorem push_array_rt {α β : Type} (N : Nat) (hN : 0 < N)
    (enc : OmniBuffer → α → OmniBuffer × List Nat) (dec : List Nat → Option β) (view : α → β)
    (P : α → Prop) (ωf : OmniBuffer) (hitem : ItemRT N enc dec view P ωf)
    (ω : OmniBuffer) (xs : List α) (hxs : ∀ x ∈ xs, P x) :
    Grows ω (push_array enc ω xs).1 ∧
    (push_array enc ω xs).2.stop = (push_array enc ω xs).2.start + N * xs.length ∧
    (Grows (push_array enc ω xs).1 ωf →
      decodeRange dec N ωf.data (push_array enc ω xs).2.start (push_array enc ω xs).2.stop
        = some (xs.map view)) := by
  by_cases hxe : xs.isEmpty
  · have hxn : xs = [] := by simpa [List.isEmpty_iff] using hxe
    subst hxn
    have hpush : push_array enc ω ([] : List α) = (ω, ⟨0, 0⟩) := rfl
    rw [hpush]
    exact ⟨grows_refl ω, by simp, fun _ => by simpa using decodeRange_nil dec N ωf.data 0 0 (le_refl 0)⟩
  · obtain ⟨hlen, hgrow, hdec⟩ := encodeList_rt N hN enc dec view P ωf hitem xs hxs ω
    have hre : ¬ (encodeListWith enc ω xs).2.isEmpty = true := by
      have hxl : 0 < xs.length := by
        cases xs
        · simp at hxe
        · simp
      rw [List.isEmpty_iff]
      intro hnil
      rw [hnil] at hlen
      simp only [List.length_nil] at hlen
      have hp := Nat.mul_pos hN hxl
      omega
    have hpush : push_array enc ω xs
        = (encodeListWith enc ω xs).1.push_data (encodeListWith enc ω xs).2 := by
      simp [push_array, hxe]
    obtain ⟨hstart, hstop, hdata, htext, hoff, hslice, hgrow2⟩ :=
      push_data_spec (encodeListWith enc ω xs).1 (encodeListWith enc ω xs).2 hre
    rw [hpush]
    refine ⟨grows_trans hgrow hgrow2, by rw [hstop, hstart, hlen], ?_⟩
    intro hf
    rw [hstart, hstop, hlen]
    exact hdec (encodeListWith enc ω xs).1.data.length (grows_trans hgrow2 hf)
      (sliceIs_grow hf (hstart ▸ hslice))

/-- Round-trip contract of the free `push_array` (render into a local buffer,
record the buffer length as split offset). -/
theorem push_array_into_rt {α β : Type} (N : Nat) (hN : 0 < N)
    (enc : OmniBuffer → α → OmniBuffer × List Nat) (dec : List Nat → Option β) (view : α → β)
    (P : α → Prop) (ωf : OmniBuffer) (hitem : ItemRT N enc dec view P ωf)
    (buf : List Nat) (ω : OmniBuffer) (xs : List α) (hxs : ∀ x ∈ xs, P x)
    (buf' : List Nat) (ω' : OmniBuffer) (o : Nat)
    (hp : push_array_into enc buf ω xs = (buf', ω', o)) :
    ∃ repr, buf' = buf ++ repr ∧ repr.length = N * xs.length ∧
      o = buf.length + N * xs.length ∧ Grows ω ω' ∧
      (∀ s, Grows ω' ωf → sliceIs ωf.data s repr →
        decodeRange dec N ωf.data s (s + N * xs.length) = some (xs.map view)) := by
  by_cases hxe : xs.isEmpty
  · have hxn : xs = [] := by simpa [List.isEmpty_iff] using hxe
    subst hxn
    have hpush : push_array_into enc buf ω ([] : List α) = (buf, ω, buf.length) := rfl
    rw [hpush] at hp
    injection hp with h1 h2
    injection h2 with h2 h3
    subst h1
    subst h2
    subst h3
    refine ⟨[], by simp, by simp, by simp, grows_refl ω, ?_⟩
    intro s _ _
    simp only [List.length_nil, Nat.mul_zero, Nat.add_zero, List.map_nil]
    exact decodeRange_nil dec N ωf.data s s (le_refl s)
  · have hpush : push_array_into enc buf ω xs
        = (buf ++ (encodeListWith enc ω xs).2, (encodeListWith enc ω xs).1,
           (buf ++ (encodeListWith enc ω xs).2).length) := by
      simp [push_array_into, hxe]
    rw [hpush] at hp
    injection hp with h1 h2
    injection h2 with h2 h3
    obtain ⟨hlen, hgrow, hdec⟩ := encodeList_rt N hN enc dec view P ωf hitem xs hxs ω
    subst h1
    subst h2
    subst h3
    exact ⟨(encodeListWith enc ω xs).2, rfl, hlen, by simp [hlen], hgrow, hdec⟩

theorem itemRT_enum (m : Nat) (ωf : OmniBuffer) :
    ItemRT 1 encodeEnumItem (decodeEnumItem m) id (fun val => val < m) ωf := by
  intro ω x hx
  refine ⟨rfl, grows_refl ω, ?_⟩
  intro _
  simp [encodeEnumItem, decodeEnumItem, to_u32, from_u32, hx]

theorem itemRT_str (ωf : OmniBuffer) :
    ItemRT 2 encodeStrItem (decodeStrItem ωf.text) id (fun _ => True) ωf := by
  intro ω s _
  obtain ⟨hgrow, _, _, _, _, hget⟩ := push_str_spec ω s
  refine ⟨rfl, hgrow, ?_⟩
  intro hf
  simp only [encodeStrItem, decodeStrItem, id]
  rw [hget ωf hf]

/-- Unpacking the gloss word: offset below bit 28, a 4-bit ordinal above. -/
theorem gloss_word_unpack (a l : Nat) (ha : a < 2 ^ 28) (hl : l < 16) :
    (a ||| (l <<< 28)) &&& 0x0FFFFFFF = a ∧
    ((a ||| (l <<< 28)) &&& 0xF0000000) >>> 28 = l := by
  constructor
  · have h : (0x0FFFFFFF : Nat) = 2 ^ 28 - 1 := by norm_num
    rw [h]
    exact unpack_low a l 28 ha
  · have h : (0xF0000000 : Nat) = 0x0000000F <<< 28 := by norm_num [Nat.shiftLeft_eq]
    rw [h, mask_shift_extract, unpack_high a l 28 ha]
    have h2 : (0x0000000F : Nat) = 2 ^ 4 - 1 := by norm_num
    have h3 : l < 2 ^ 4 := by omega
    rw [h2, and_low_mask, Nat.mod_eq_of_lt h3]

theorem itemRT_gloss (ωf : OmniBuffer) (hT : ωf.text.length < 2 ^ 28) (mLang mType : Nat)
    (hmL : mLang ≤ 16) (hmT : mType ≤ 16) :
    ItemRT 2 RawGloss.encode_one (decodeGloss mLang mType ωf.text) RawGloss.toView
      (fun g => g.lang < mLang ∧ g.g_type < mType) ωf := by
  intro ω g hg
  obtain ⟨hgrow, _, _, hstop, hle, hget⟩ := push_str_spec ω g.text
  refine ⟨rfl, hgrow, ?_⟩
  intro hf
  have hb : (ω.push_str g.text).2.stop ≤ ωf.text.length :=
    le_trans hle (grows_text_le hf)
  have hstartlt : (ω.push_str g.text).2.start < 2 ^ 28 := by omega
  have hstoplt : (ω.push_str g.text).2.stop < 2 ^ 28 := by omega
  obtain ⟨hu1, hu2⟩ := gloss_word_unpack (ω.push_str g.text).2.start (to_u32 g.lang)
    hstartlt (by simp [to_u32]; omega)
  obtain ⟨hu3, hu4⟩ := gloss_word_unpack (ω.push_str g.text).2.stop (to_u32 g.g_type)
    hstoplt (by simp [to_u32]; omega)
  simp only [RawGloss.encode_one, decodeGloss, hu1, hu2, hu3, hu4]
  simp only [to_u32, from_u32, hg.1, hg.2, if_true, if_pos hg.1, if_pos hg.2]
  rw [hget ωf hf]
  rfl

/-- Unpacking the loanword-source word 0: text-start offset plus two flag
bits at 28 and 29. -/
theorem lsource_word_unpack (a : Nat) (f1 f2 : Bool) (ha : a < 2 ^ 28) :
    ((if f2 then (if f1 then a ||| 0x10000000 else a) ||| 0x20000000
      else (if f1 then a ||| 0x10000000 else a)) &&& 0x0FFFFFFF = a) ∧
    (((if f2 then (if f1 then a ||| 0x10000000 else a) ||| 0x20000000
      else (if f1 then a ||| 0x10000000 else a)) &&& 0x10000000) == 0x10000000) = f1 ∧
    (((if f2 then (if f1 then a ||| 0x10000000 else a) ||| 0x20000000
      else (if f1 then a ||| 0x10000000 else a)) &&& 0x20000000) == 0x20000000) = f2 := by
  have hmask : a &&& 0x0FFFFFFF = a := by
    have h : (0x0FFFFFFF : Nat) = 2 ^ 28 - 1 := by norm_num
    rw [h, and_low_mask, Nat.mod_eq_of_lt ha]
  have hac1 : a &&& 0x10000000 = 0 := by
    have h : (0x10000000 : Nat) = 1 <<< 28 := by norm_num [Nat.shiftLeft_eq]
    rw [h, and_high_mask_eq_zero a 1 28 ha]
  have hac2 : a &&& 0x20000000 = 0 := by
    have h : (0x20000000 : Nat) = 2 <<< 28 := by norm_num [Nat.shiftLeft_eq]
    rw [h, and_high_mask_eq_zero a 2 28 ha]
  cases f1 <;> cases f2 <;>
    simp only [if_true, if_false, Bool.false_eq_true, and_lor_dist, hmask, hac1, hac2,
      show (0x10000000 &&& 0x0FFFFFFF : Nat) = 0 from by decide,
      show (0x20000000 &&& 0x0FFFFFFF : Nat) = 0 from by decide,
      show (0x10000000 &&& 0x10000000 : Nat) = 0x10000000 from by decide,
      show (0x20000000 &&& 0x10000000 : Nat) = 0 from by decide,
      show (0x10000000 &&& 0x20000000 : Nat) = 0 from by decide,
      show (0x20000000 &&& 0x20000000 : Nat) = 0x20000000 from by decide,
      Nat.or_zero, Nat.zero_or] <;>
    refine ⟨?_, ?_, ?_⟩ <;> first
      | rfl
      | decide

theorem itemRT_lsource (ωf : OmniBuffer) (hT : ωf.text.length < 2 ^ 28) :
    ItemRT 4 RawLSource.encode_one (decodeLSource ωf.text) RawLSource.toView
      (fun _ => True) ωf := by
  intro ω l _
  obtain ⟨hg1, _, _, hstop1, hle1, hget1⟩ := push_str_spec ω l.text
  obtain ⟨hg2, _, _, hstop2, hle2, hget2⟩ := push_str_spec (ω.push_str l.text).1 l.lang
  refine ⟨rfl, grows_trans hg1 hg2, ?_⟩
  intro hf
  have hb : (ω.push_str l.text).2.stop ≤ ωf.text.length :=
    le_trans (le_trans hle1 (grows_text_le hg2)) (grows_text_le hf)
  have hstartlt : (ω.push_str l.text).2.start < 2 ^ 28 := by omega
  obtain ⟨hu1, hu2, hu3⟩ := lsource_word_unpack (ω.push_str l.text).2.start
    l.is_part l.is_wasei hstartlt
  simp only [RawLSource.encode_one, decodeLSource, hu1, hu2, hu3]
  rw [hget1 ωf (grows_trans hg2 hf), hget2 ωf hf]
  rfl

theorem itemRT_kanji (ωf : OmniBuffer) (m : Nat) :
    ItemRT 5 RawKanjiElement.encode_one (decodeKanji m ωf.data ωf.text) RawKanjiElement.toView
      (fun k => ∀ x ∈ k.ke_inf, x < m) ωf := by
  intro ω k hk
  obtain ⟨hg1, _, _, _, _, hget⟩ := push_str_spec ω k.keb
  obtain ⟨hg2, hstop2, hdec2⟩ := push_array_rt 1 (by norm_num) encodeEnumItem (decodeEnumItem m)
    id (fun val => val < m) ωf (itemRT_enum m ωf) (ω.push_str k.keb).1 k.ke_inf hk
  refine ⟨rfl, grows_trans hg1 hg2, ?_⟩
  intro hf
  simp only [RawKanjiElement.encode_one, decodeKanji]
  rw [hdec2 hf, Priority.from_to_u32, hget ωf (grows_trans hg2 hf)]
  simp [RawKanjiElement.toView, List.map_id]

theorem itemRT_reading (ωf : OmniBuffer) (m : Nat) :
    ItemRT 5 RawReadingElement.encode_one (decodeReading m ωf.data ωf.text)
      RawReadingElement.toView (fun r => ∀ x ∈ r.re_inf, x < m) ωf := by
  intro ω r hr
  obtain ⟨hg1, _, _, _, _, hget⟩ := push_str_spec ω r.reb
  obtain ⟨hg2, hstop2, hdec2⟩ := push_array_rt 1 (by norm_num) encodeEnumItem (decodeEnumItem m)
    id (fun val => val < m) ωf (itemRT_enum m ωf) (ω.push_str r.reb).1 r.re_inf hr
  refine ⟨rfl, grows_trans hg1 hg2, ?_⟩
  intro hf
  simp only [RawReadingElement.encode_one, decodeReading]
  rw [hdec2 hf, Priority.from_to_u32, hget ωf (grows_trans hg2 hf)]
  simp [RawReadingElement.toView, List.map_id]

/-- Field extraction from an additively packed word of 8-bit fields. -/
theorem unpack4_f1 (o1 o2 o3 o4 : Nat) (h1 : o1 < 256) :
    (o1 + (o2 <<< 8) + (o3 <<< 16) + (o4 <<< 24)) &&& 0x000000FF = o1 := by
  rw [mask_low8]
  simp only [Nat.shiftLeft_eq]
  norm_num
  omega

theorem unpack4_f2 (o1 o2 o3 o4 : Nat) (h1 : o1 < 256) (h2 : o2 < 256) :
    ((o1 + (o2 <<< 8) + (o3 <<< 16) + (o4 <<< 24)) &&& 0x0000FF00) >>> 8 = o2 := by
  rw [mask_mid8_8]
  simp only [Nat.shiftLeft_eq]
  norm_num
  omega

theorem unpack4_f3 (o1 o2 o3 o4 : Nat) (h1 : o1 < 256) (h2 : o2 < 256) (h3 : o3 < 256) :
    ((o1 + (o2 <<< 8) + (o3 <<< 16) + (o4 <<< 24)) &&& 0x00FF0000) >>> 16 = o3 := by
  rw [mask_mid8_16]
  simp only [Nat.shiftLeft_eq]
  norm_num
  omega

theorem unpack4_f4 (o1 o2 o3 o4 : Nat) (h1 : o1 < 256) (h2 : o2 < 256) (h3 : o3 < 256)
    (h4 : o4 < 256) :
    ((o1 + (o2 <<< 8) + (o3 <<< 16) + (o4 <<< 24)) &&& 0xFF000000) >>> 24 = o4 := by
  rw [mask_mid8_24]
  simp only [Nat.shiftLeft_eq]
  norm_num
  omega

theorem unpack2_f1 (o9 o10 : Nat) (h9 : o9 < 256) :
    (o9 + (o10 <<< 8)) &&& 0x000000FF = o9 := by
  rw [mask_low8]
  simp only [Nat.shiftLeft_eq]
  norm_num
  omega

theorem unpack2_f2 (o9 o10 : Nat) (h9 : o9 < 256) (h10 : o10 < 256) :
    ((o9 + (o10 <<< 8)) &&& 0x0000FF00) >>> 8 = o10 := by
  rw [mask_mid8_8]
  simp only [Nat.shiftLeft_eq]
  norm_num
  omega

theorem itemRT_sense (ωf : OmniBuffer) (cnt : EnumCounts) (hT : ωf.text.length < 2 ^ 28)
    (hgl : cnt.gLang ≤ 16) (hgt : cnt.gType ≤ 16) :
    ItemRT 5 RawSense.encode_one (decodeSense cnt ωf.data ωf.text) RawSense.toView
      (RawSense.Valid cnt) ωf := by
  intro ω s hval
  obtain ⟨hpos, htop, hmisc, hdial, hglo, hceil⟩ := hval
  rcases hp1 : push_array_into encodeStrItem [] ω s.stagk with ⟨buf1, ω1, o1⟩
  obtain ⟨r1, hb1, hl1, ho1, hg1, hd1⟩ := push_array_into_rt 2 (by norm_num) _ _ _ _ ωf
    (itemRT_str ωf) [] ω s.stagk (by simp) buf1 ω1 o1 hp1
  rcases hp2 : push_array_into encodeStrItem buf1 ω1 s.stagr with ⟨buf2, ω2, o2⟩
  obtain ⟨r2, hb2, hl2, ho2, hg2, hd2⟩ := push_array_into_rt 2 (by norm_num) _ _ _ _ ωf
    (itemRT_str ωf) buf1 ω1 s.stagr (by simp) buf2 ω2 o2 hp2
  rcases hp3 : push_array_into encodeEnumItem buf2 ω2 s.pos with ⟨buf3, ω3, o3⟩
  obtain ⟨r3, hb3, hl3, ho3, hg3, hd3⟩ := push_array_into_rt 1 (by norm_num) _ _ _ _ ωf
    (itemRT_enum cnt.pos ωf) buf2 ω2 s.pos hpos buf3 ω3 o3 hp3
  rcases hp4 : push_array_into encodeStrItem buf3 ω3 s.xref with ⟨buf4, ω4, o4⟩
  obtain ⟨r4, hb4, hl4, ho4, hg4, hd4⟩ := push_array_into_rt 2 (by norm_num) _ _ _ _ ωf
    (itemRT_str ωf) buf3 ω3 s.xref (by simp) buf4 ω4 o4 hp4
  rcases hp5 : push_array_into encodeStrItem buf4 ω4 s.ant with ⟨buf5, ω5, o5⟩
  obtain ⟨r5, hb5, hl5, ho5, hg5, hd5⟩ := push_array_into_rt 2 (by norm_num) _ _ _ _ ωf
    (itemRT_str ωf) buf4 ω4 s.ant (by simp) buf5 ω5 o5 hp5
  rcases hp6 : push_array_into encodeEnumItem buf5 ω5 s.field with ⟨buf6, ω6, o6⟩
  obtain ⟨r6, hb6, hl6, ho6, hg6, hd6⟩ := push_array_into_rt 1 (by norm_num) _ _ _ _ ωf
    (itemRT_enum cnt.topic ωf) buf5 ω5 s.field htop buf6 ω6 o6 hp6
  rcases hp7 : push_array_into encodeEnumItem buf6 ω6 s.misc with ⟨buf7, ω7, o7⟩
  obtain ⟨r7, hb7, hl7, ho7, hg7, hd7⟩ := push_array_into_rt 1 (by norm_num) _ _ _ _ ωf
    (itemRT_enum cnt.sInfo ωf) buf6 ω6 s.misc hmisc buf7 ω7 o7 hp7
  rcases hp8 : push_array_into encodeStrItem buf7 ω7 s.s_inf with ⟨buf8, ω8, o8⟩
  obtain ⟨r8, hb8, hl8, ho8, hg8, hd8⟩ := push_array_into_rt 2 (by norm_num) _ _ _ _ ωf
    (itemRT_str ωf) buf7 ω7 s.s_inf (by simp) buf8 ω8 o8 hp8
  rcases hp9 : push_array_into RawLSource.encode_one buf8 ω8 s.lsource with ⟨buf9, ω9, o9⟩
  obtain ⟨r9, hb9, hl9, ho9, hg9, hd9⟩ := push_array_into_rt 4 (by norm_num) _ _ _ _ ωf
    (itemRT_lsource ωf hT) buf8 ω8 s.lsource (by simp) buf9 ω9 o9 hp9
  rcases hp10 : push_array_into encodeEnumItem buf9 ω9 s.dial with ⟨buf10, ω10, o10⟩
  obtain ⟨r10, hb10, hl10, ho10, hg10, hd10⟩ := push_array_into_rt 1 (by norm_num) _ _ _ _ ωf
    (itemRT_enum cnt.dial ωf) buf9 ω9 s.dial hdial buf10 ω10 o10 hp10
  rcases hp11 : push_array_into RawGloss.encode_one buf10 ω10 s.gloss with ⟨buf11, ω11, o11⟩
  obtain ⟨r11, hb11, hl11, ho11, hg11, hd11⟩ := push_array_into_rt 2 (by norm_num) _ _ _ _ ωf
    (itemRT_gloss ωf hT cnt.gLang cnt.gType hgl hgt) buf10 ω10 s.gloss hglo buf11 ω11 o11 hp11
  obtain ⟨hstoppd, hgrowpd, hslicepd⟩ := push_data_rt ω11 buf11
  have henc : RawSense.encode_one ω s
      = ((ω11.push_data buf11).1,
         [(ω11.push_data buf11).2.start, (ω11.push_data buf11).2.stop,
          o1 + (o2 <<< 8) + (o3 <<< 16) + (o4 <<< 24),
          o5 + (o6 <<< 8) + (o7 <<< 16) + (o8 <<< 24), o9 + (o10 <<< 8)]) := by
    simp only [RawSense.encode_one, hp1, hp2, hp3, hp4, hp5, hp6, hp7, hp8, hp9, hp10, hp11]
  have hlb0 : ([] : List Nat).length = 0 := rfl
  have hlb1 : buf1.length = o1 := by rw [hb1]; simp [hl1, ho1]
  have hlb2 : buf2.length = o2 := by rw [hb2]; simp [hl2, ho2, hlb1]
  have hlb3 : buf3.length = o3 := by rw [hb3]; simp [hl3, ho3, hlb2]
  have hlb4 : buf4.length = o4 := by rw [hb4]; simp [hl4, ho4, hlb3]
  have hlb5 : buf5.length = o5 := by rw [hb5]; simp [hl5, ho5, hlb4]
  have hlb6 : buf6.length = o6 := by rw [hb6]; simp [hl6, ho6, hlb5]
  have hlb7 : buf7.length = o7 := by rw [hb7]; simp [hl7, ho7, hlb6]
  have hlb8 : buf8.length = o8 := by rw [hb8]; simp [hl8, ho8, hlb7]
  have hlb9 : buf9.length = o9 := by rw [hb9]; simp [hl9, ho9, hlb8]
  have hlb10 : buf10.length = o10 := by rw [hb10]; simp [hl10, ho10, hlb9]
  have hlb11 : buf11.length = o11 := by rw [hb11]; simp [hl11, ho11, hlb10]
  have hsum : o10 = s.splitCeiling := by
    unfold RawSense.splitCeiling
    simp only [hlb0] at ho1
    omega
  have hord : o1 ≤ o2 ∧ o2 ≤ o3 ∧ o3 ≤ o4 ∧ o4 ≤ o5 ∧ o5 ≤ o6 ∧ o6 ≤ o7 ∧ o7 ≤ o8 ∧
      o8 ≤ o9 ∧ o9 ≤ o10 ∧ o10 ≤ o11 := by
    simp only [hlb0] at ho1
    omega
  have hc1 : o1 < 256 := by omega
  have hc2 : o2 < 256 := by omega
  have hc3 : o3 < 256 := by omega
  have hc4 : o4 < 256 := by omega
  have hc5 : o5 < 256 := by omega
  have hc6 : o6 < 256 := by omega
  have hc7 : o7 < 256 := by omega
  have hc8 : o8 < 256 := by omega
  have hc9 : o9 < 256 := by omega
  have hc10 : o10 < 256 := by omega
  rw [henc]
  refine ⟨rfl, ?_, ?_⟩
  · exact grows_trans hg1 (grows_trans hg2 (grows_trans hg3 (grows_trans hg4 (grows_trans hg5
      (grows_trans hg6 (grows_trans hg7 (grows_trans hg8 (grows_trans hg9 (grows_trans hg10
        (grows_trans hg11 hgrowpd))))))))))
  · intro hf
    have hf11 : Grows ω11 ωf := grows_trans hgrowpd hf
    have hf10 : Grows ω10 ωf := grows_trans hg11 hf11
    have hf9 : Grows ω9 ωf := grows_trans hg10 hf10
    have hf8 : Grows ω8 ωf := grows_trans hg9 hf9
    have hf7 : Grows ω7 ωf := grows_trans hg8 hf8
    have hf6 : Grows ω6 ωf := grows_trans hg7 hf7
    have hf5 : Grows ω5 ωf := grows_trans hg6 hf6
    have hf4 : Grows ω4 ωf := grows_trans hg5 hf5
    have hf3 : Grows ω3 ωf := grows_trans hg4 hf4
    have hf2 : Grows ω2 ωf := grows_trans hg3 hf3
    have hf1 : Grows ω1 ωf := grows_trans hg2 hf2
    set st := (ω11.push_data buf11).2.start with hstdef
    set en := (ω11.push_data buf11).2.stop with hendef
    have hsl11' : sliceIs ωf.data st buf11 := hslicepd ωf hf
    rw [hb11] at hsl11'
    obtain ⟨hsl10', hslr11⟩ := sliceIs_split hsl11'
    rw [hlb10] at hslr11
    rw [hb10] at hsl10'
    obtain ⟨hsl9', hslr10⟩ := sliceIs_split hsl10'
    rw [hlb9] at hslr10
    rw [hb9] at hsl9'
    obtain ⟨hsl8', hslr9⟩ := sliceIs_split hsl9'
    rw [hlb8] at hslr9
    rw [hb8] at hsl8'
    obtain ⟨hsl7', hslr8⟩ := sliceIs_split hsl8'
    rw [hlb7] at hslr8
    rw [hb7] at hsl7'
    obtain ⟨hsl6', hslr7⟩ := sliceIs_split hsl7'
    rw [hlb6] at hslr7
    rw [hb6] at hsl6'
    obtain ⟨hsl5', hslr6⟩ := sliceIs_split hsl6'
    rw [hlb5] at hslr6
    rw [hb5] at hsl5'
    obtain ⟨hsl4', hslr5⟩ := sliceIs_split hsl5'
    rw [hlb4] at hslr5
    rw [hb4] at hsl4'
    obtain ⟨hsl3', hslr4⟩ := sliceIs_split hsl4'
    rw [hlb3] at hslr4
    rw [hb3] at hsl3'
    obtain ⟨hsl2', hslr3⟩ := sliceIs_split hsl3'
    rw [hlb2] at hslr3
    rw [hb2] at hsl2'
    obtain ⟨hsl1', hslr2⟩ := sliceIs_split hsl2'
    rw [hlb1] at hslr2
    rw [hb1] at hsl1'
    obtain ⟨_, hslr1⟩ := sliceIs_split hsl1'
    simp only [List.length_nil, Nat.add_zero] at hslr1
    have ho1' : o1 = 2 * s.stagk.length := by
      simp only [List.length_nil] at ho1
      omega
    have hdr1 : decodeRange (decodeStrItem ωf.text) 2 ωf.data st (st + o1)
        = some (s.stagk.map id) := by
      rw [show st + o1 = st + 2 * s.stagk.length from by omega]
      exact hd1 _ hf1 hslr1
    have hdr2 : decodeRange (decodeStrItem ωf.text) 2 ωf.data (st + o1) (st + o2)
        = some (s.stagr.map id) := by
      rw [show st + o2 = st + o1 + 2 * s.stagr.length from by omega]
      exact hd2 _ hf2 hslr2
    have hdr3 : decodeRange (decodeEnumItem cnt.pos) 1 ωf.data (st + o2) (st + o3)
        = some (s.pos.map id) := by
      rw [show st + o3 = st + o2 + 1 * s.pos.length from by omega]
      exact hd3 _ hf3 hslr3
    have hdr4 : decodeRange (decodeStrItem ωf.text) 2 ωf.data (st + o3) (st + o4)
        = some (s.xref.map id) := by
      rw [show st + o4 = st + o3 + 2 * s.xref.length from by omega]
      exact hd4 _ hf4 hslr4
    have hdr5 : decodeRange (decodeStrItem ωf.text) 2 ωf.data (st + o4) (st + o5)
        = some (s.ant.map id) := by
      rw [show st + o5 = st + o4 + 2 * s.ant.length from by omega]
      exact hd5 _ hf5 hslr5
    have hdr6 : decodeRange (decodeEnumItem cnt.topic) 1 ωf.data (st + o5) (st + o6)
        = some (s.field.map id) := by
      rw [show st + o6 = st + o5 + 1 * s.field.length from by omega]
      exact hd6 _ hf6 hslr6
    have hdr7 : decodeRange (decodeEnumItem cnt.sInfo) 1 ωf.data (st + o6) (st + o7)
        = some (s.misc.map id) := by
      rw [show st + o7 = st + o6 + 1 * s.misc.length from by omega]
      exact hd7 _ hf7 hslr7
    have hdr8 : decodeRange (decodeStrItem ωf.text) 2 ωf.data (st + o7) (st + o8)
        = some (s.s_inf.map id) := by
      rw [show st + o8 = st + o7 + 2 * s.s_inf.length from by omega]
      exact hd8 _ hf8 hslr8
    have hdr9 : decodeRange (decodeLSource ωf.text) 4 ωf.data (st + o8) (st + o9)
        = some (s.lsource.map RawLSource.toView) := by
      rw [show st + o9 = st + o8 + 4 * s.lsource.length from by omega]
      exact hd9 _ hf9 hslr9
    have hdr10 : decodeRange (decodeEnumItem cnt.dial) 1 ωf.data (st + o9) (st + o10)
        = some (s.dial.map id) := by
      rw [show st + o10 = st + o9 + 1 * s.dial.length from by omega]
      exact hd10 _ hf10 hslr10
    have hdr11 : decodeRange (decodeGloss cnt.gLang cnt.gType ωf.text) 2 ωf.data
        (st + o10) en = some (s.gloss.map RawGloss.toView) := by
      rw [show en = st + o10 + 2 * s.gloss.length from by rw [hstoppd, hlb11]; omega]
      exact hd11 _ hf11 hslr11
    have hm1 := unpack4_f1 o1 o2 o3 o4 hc1
    have hm2 := unpack4_f2 o1 o2 o3 o4 hc1 hc2
    have hm3 := unpack4_f3 o1 o2 o3 o4 hc1 hc2 hc3
    have hm4 := unpack4_f4 o1 o2 o3 o4 hc1 hc2 hc3 hc4
    have hm5 := unpack4_f1 o5 o6 o7 o8 hc5
    have hm6 := unpack4_f2 o5 o6 o7 o8 hc5 hc6
    have hm7 := unpack4_f3 o5 o6 o7 o8 hc5 hc6 hc7
    have hm8 := unpack4_f4 o5 o6 o7 o8 hc5 hc6 hc7 hc8
    have hm9 := unpack2_f1 o9 o10 hc9
    have hm10 := unpack2_f2 o9 o10 hc9 hc10
    simp only [decodeSense, senseMids, hm1, hm2, hm3, hm4, hm5, hm6, hm7, hm8, hm9, hm10]
    rw [hdr1, hdr2, hdr3, hdr4, hdr5, hdr6, hdr7, hdr8, hdr9, hdr10, hdr11]
    simp [RawSense.toView, List.map_id]

/-- The entry-offset table is only written by `process_entry`; every encode
helper leaves it untouched. -/
def KeepsOffs {α : Type} (enc : OmniBuffer → α → OmniBuffer × List Nat) : Prop :=
  ∀ ω x, (enc ω x).1.entry_offsets = ω.entry_offsets

theorem push_str_offs (ω : OmniBuffer) (s : String) :
    (ω.push_str s).1.entry_offsets = ω.entry_offsets := by
  unfold OmniBuffer.push_str
  split <;> rfl

theorem push_data_offs (ω : OmniBuffer) (d : List Nat) :
    (ω.push_data d).1.entry_offsets = ω.entry_offsets := by
  unfold OmniBuffer.push_data
  split <;> rfl

theorem encodeListWith_offs {α : Type} (enc : OmniBuffer → α → OmniBuffer × List Nat)
    (h : KeepsOffs enc) (xs : List α) : ∀ ω, (encodeListWith enc ω xs).1.entry_offsets
      = ω.entry_offsets := by
  induction xs with
  | nil => intro ω; rfl
  | cons x xs ih =>
    intro ω
    show (encodeListWith enc (enc ω x).1 xs).1.entry_offsets = ω.entry_offsets
    rw [ih (enc ω x).1, h ω x]

theorem push_array_offs {α : Type} (enc : OmniBuffer → α → OmniBuffer × List Nat)
    (h : KeepsOffs enc) (ω : OmniBuffer) (xs : List α) :
    (push_array enc ω xs).1.entry_offsets = ω.entry_offsets := by
  unfold push_array
  split
  · rfl
  · rw [push_data_offs, encodeListWith_offs enc h xs ω]

theorem push_array_into_offs {α : Type} (enc : OmniBuffer → α → OmniBuffer × List Nat)
    (h : KeepsOffs enc) (buf : List Nat) (ω : OmniBuffer) (xs : List α) :
    (push_array_into enc buf ω xs).2.1.entry_offsets = ω.entry_offsets := by
  unfold push_array_into
  split
  · rfl
  · exact encodeListWith_offs enc h xs ω

theorem keepsOffs_enum : KeepsOffs encodeEnumItem := fun _ _ => rfl

theorem keepsOffs_str : KeepsOffs encodeStrItem := fun ω s => push_str_offs ω s

theorem keepsOffs_lsource : KeepsOffs RawLSource.encode_one := by
  intro ω l
  show ((ω.push_str l.text).1.push_str l.lang).1.entry_offsets = ω.entry_offsets
  rw [push_str_offs, push_str_offs]

theorem keepsOffs_gloss : KeepsOffs RawGloss.encode_one := fun ω g => push_str_offs ω g.text

theorem keepsOffs_kanji : KeepsOffs RawKanjiElement.encode_one := by
  intro ω k
  show (push_array encodeEnumItem (ω.push_str k.keb).1 k.ke_inf).1.entry_offsets
    = ω.entry_offsets
  rw [push_array_offs encodeEnumItem keepsOffs_enum, push_str_offs]

theorem keepsOffs_reading : KeepsOffs RawReadingElement.encode_one := by
  intro ω r
  show (push_array encodeEnumItem (ω.push_str r.reb).1 r.re_inf).1.entry_offsets
    = ω.entry_offsets
  rw [push_array_offs encodeEnumItem keepsOffs_enum, push_str_offs]

theorem keepsOffs_sense : KeepsOffs RawSense.encode_one := by
  intro ω s
  rcases hp1 : push_array_into encodeStrItem [] ω s.stagk with ⟨buf1, ω1, o1⟩
  rcases hp2 : push_array_into encodeStrItem buf1 ω1 s.stagr with ⟨buf2, ω2, o2⟩
  rcases hp3 : push_array_into encodeEnumItem buf2 ω2 s.pos with ⟨buf3, ω3, o3⟩
  rcases hp4 : push_array_into encodeStrItem buf3 ω3 s.xref with ⟨buf4, ω4, o4⟩
  rcases hp5 : push_array_into encodeStrItem buf4 ω4 s.ant with ⟨buf5, ω5, o5⟩
  rcases hp6 : push_array_into encodeEnumItem buf5 ω5 s.field with ⟨buf6, ω6, o6⟩
  rcases hp7 : push_array_into encodeEnumItem buf6 ω6 s.misc with ⟨buf7, ω7, o7⟩
  rcases hp8 : push_array_into encodeStrItem buf7 ω7 s.s_inf with ⟨buf8, ω8, o8⟩
  rcases hp9 : push_array_into RawLSource.encode_one buf8 ω8 s.lsource with ⟨buf9, ω9, o9⟩
  rcases hp10 : push_array_into encodeEnumItem buf9 ω9 s.dial with ⟨buf10, ω10, o10⟩
  rcases hp11 : push_array_into RawGloss.encode_one buf10 ω10 s.gloss with ⟨buf11, ω11, o11⟩
  have h1 := push_array_into_offs encodeStrItem keepsOffs_str [] ω s.stagk
  have h2 := push_array_into_offs encodeStrItem keepsOffs_str buf1 ω1 s.stagr
  have h3 := push_array_into_offs encodeEnumItem keepsOffs_enum buf2 ω2 s.pos
  have h4 := push_array_into_offs encodeStrItem keepsOffs_str buf3 ω3 s.xref
  have h5 := push_array_into_offs encodeStrItem keepsOffs_str buf4 ω4 s.ant
  have h6 := push_array_into_offs encodeEnumItem keepsOffs_enum buf5 ω5 s.field
  have h7 := push_array_into_offs encodeEnumItem keepsOffs_enum buf6 ω6 s.misc
  have h8 := push_array_into_offs encodeStrItem keepsOffs_str buf7 ω7 s.s_inf
  have h9 := push_array_into_offs RawLSource.encode_one keepsOffs_lsource buf8 ω8 s.lsource
  have h10 := push_array_into_offs encodeEnumItem keepsOffs_enum buf9 ω9 s.dial
  have h11 := push_array_into_offs RawGloss.encode_one keepsOffs_gloss buf10 ω10 s.gloss
  rw [hp1] at h1
  rw [hp2] at h2
  rw [hp3] at h3
  rw [hp4] at h4
  rw [hp5] at h5
  rw [hp6] at h6
  rw [hp7] at h7
  rw [hp8] at h8
  rw [hp9] at h9
  rw [hp10] at h10
  rw [hp11] at h11
  simp only [RawSense.encode_one, hp1, hp2, hp3, hp4, hp5, hp6, hp7, hp8, hp9, hp10, hp11]
  rw [push_data_offs]
  simp only at h1 h2 h3 h4 h5 h6 h7 h8 h9 h10 h11
  rw [h11, h10, h9, h8, h7, h6, h5, h4, h3, h2, h1]

theorem keepsOffs_entry : KeepsOffs RawEntry.encode_one := by
  intro ω e
  rcases hp1 : push_array_into RawKanjiElement.encode_one [] ω e.k_ele with ⟨buf1, ω1, o1⟩
  rcases hp2 : push_array_into RawReadingElement.encode_one buf1 ω1 e.r_ele with ⟨buf2, ω2, o2⟩
  rcases hp3 : push_array_into RawSense.encode_one buf2 ω2 e.sense with ⟨buf3, ω3, o3⟩
  have h1 := push_array_into_offs RawKanjiElement.encode_one keepsOffs_kanji [] ω e.k_ele
  have h2 := push_array_into_offs RawReadingElement.encode_one keepsOffs_reading buf1 ω1 e.r_ele
  have h3 := push_array_into_offs RawSense.encode_one keepsOffs_sense buf2 ω2 e.sense
  rw [hp1] at h1
  rw [hp2] at h2
  rw [hp3] at h3
  simp only [RawEntry.encode_one, hp1, hp2, hp3]
  rw [push_data_offs]
  simp only at h1 h2 h3
  rw [h3, h2, h1]

/-- Round-trip contract of the 4-word entry header. -/
theorem entryRT (ωf : OmniBuffer) (cnt : EnumCounts) (hT : ωf.text.length < 2 ^ 28)
    (hgl : cnt.gLang ≤ 16) (hgt : cnt.gType ≤ 16) :
    ItemRT 4 RawEntry.encode_one (decodeEntryWords cnt ωf.data ωf.text) RawEntry.toView
      (RawEntry.Valid cnt) ωf := by
  intro ω e hval
  obtain ⟨hk, hr, hs, hsize⟩ := hval
  rcases hp1 : push_array_into RawKanjiElement.encode_one [] ω e.k_ele with ⟨buf1, ω1, o1⟩
  obtain ⟨r1, hb1, hl1, ho1, hg1, hd1⟩ := push_array_into_rt 5 (by norm_num) _ _ _ _ ωf
    (itemRT_kanji ωf cnt.kInfo) [] ω e.k_ele hk buf1 ω1 o1 hp1
  rcases hp2 : push_array_into RawReadingElement.encode_one buf1 ω1 e.r_ele with ⟨buf2, ω2, o2⟩
  obtain ⟨r2, hb2, hl2, ho2, hg2, hd2⟩ := push_array_into_rt 5 (by norm_num) _ _ _ _ ωf
    (itemRT_reading ωf cnt.rInfo) buf1 ω1 e.r_ele hr buf2 ω2 o2 hp2
  rcases hp3 : push_array_into RawSense.encode_one buf2 ω2 e.sense with ⟨buf3, ω3, o3⟩
  obtain ⟨r3, hb3, hl3, ho3, hg3, hd3⟩ := push_array_into_rt 5 (by norm_num) _ _ _ _ ωf
    (itemRT_sense ωf cnt hT hgl hgt) buf2 ω2 e.sense hs buf3 ω3 o3 hp3
  obtain ⟨hstoppd, hgrowpd, hslicepd⟩ := push_data_rt ω3 buf3
  have henc : RawEntry.encode_one ω e
      = ((ω3.push_data buf3).1,
         [(ω3.push_data buf3).2.start, (ω3.push_data buf3).2.stop,
          o1 + (o2 <<< 16), e.ent_seq]) := by
    simp only [RawEntry.encode_one, hp1, hp2, hp3]
  have hlb1 : buf1.length = o1 := by rw [hb1]; simp [hl1, ho1]
  have hlb2 : buf2.length = o2 := by rw [hb2]; simp [hl2, ho2, hlb1]
  have hlb3 : buf3.length = o3 := by rw [hb3]; simp [hl3, ho3, hlb2]
  have ho1' : o1 = 5 * e.k_ele.length := by
    simp only [List.length_nil] at ho1
    omega
  have hc1 : o1 < 65536 := by omega
  have hc2 : o2 < 65536 := by omega
  have hsplit := entrySplit_packed o1 o2 hc1 hc2
  rw [henc]
  refine ⟨rfl, ?_, ?_⟩
  · exact grows_trans hg1 (grows_trans hg2 (grows_trans hg3 hgrowpd))
  · intro hf
    have hf3 : Grows ω3 ωf := grows_trans hgrowpd hf
    have hf2 : Grows ω2 ωf := grows_trans hg3 hf3
    have hf1 : Grows ω1 ωf := grows_trans hg2 hf2
    set st := (ω3.push_data buf3).2.start with hstdef
    set en := (ω3.push_data buf3).2.stop with hendef
    have hsl3' : sliceIs ωf.data st buf3 := hslicepd ωf hf
    rw [hb3] at hsl3'
    obtain ⟨hsl2', hslr3⟩ := sliceIs_split hsl3'
    rw [hlb2] at hslr3
    rw [hb2] at hsl2'
    obtain ⟨hsl1', hslr2⟩ := sliceIs_split hsl2'
    rw [hlb1] at hslr2
    rw [hb1] at hsl1'
    obtain ⟨_, hslr1⟩ := sliceIs_split hsl1'
    simp only [List.length_nil, Nat.add_zero] at hslr1
    have hdr1 : decodeRange (decodeKanji cnt.kInfo ωf.data ωf.text) 5 ωf.data st (st + o1)
        = some (e.k_ele.map RawKanjiElement.toView) := by
      rw [show st + o1 = st + 5 * e.k_ele.length from by omega]
      exact hd1 _ hf1 hslr1
    have hdr2 : decodeRange (decodeReading cnt.rInfo ωf.data ωf.text) 5 ωf.data (st + o1)
        (st + o2) = some (e.r_ele.map RawReadingElement.toView) := by
      rw [show st + o2 = st + o1 + 5 * e.r_ele.length from by omega]
      exact hd2 _ hf2 hslr2
    have hdr3 : decodeRange (decodeSense cnt ωf.data ωf.text) 5 ωf.data (st + o2) en
        = some (e.sense.map RawSense.toView) := by
      rw [show en = st + o2 + 5 * e.sense.length from by rw [hstoppd, hlb3]; omega]
      exact hd3 _ hf3 hslr3
    simp only [decodeEntryWords, hsplit.1, hsplit.2]
    rw [hdr1, hdr2, hdr3]
    simp [RawEntry.toView]

/-- Every encode helper only ever appends to the pools. -/
def GrowsEnc {α : Type} (enc : OmniBuffer → α → OmniBuffer × List Nat) : Prop :=
  ∀ ω x, Grows ω (enc ω x).1

theorem push_str_grows (ω : OmniBuffer) (s : String) : Grows ω (ω.push_str s).1 :=
  (push_str_spec ω s).1

theorem push_data_grows (ω : OmniBuffer) (d : List Nat) : Grows ω (ω.push_data d).1 :=
  (push_data_rt ω d).2.1

theorem encodeListWith_grows {α : Type} (enc : OmniBuffer → α → OmniBuffer × List Nat)
    (h : GrowsEnc enc) (xs : List α) : ∀ ω, Grows ω (encodeListWith enc ω xs).1 := by
  induction xs with
  | nil => intro ω; exact grows_refl ω
  | cons x xs ih =>
    intro ω
    exact grows_trans (h ω x) (ih (enc ω x).1)

theorem push_array_grows {α : Type} (enc : OmniBuffer → α → OmniBuffer × List Nat)
    (h : GrowsEnc enc) (ω : OmniBuffer) (xs : List α) : Grows ω (push_array enc ω xs).1 := by
  unfold push_array
  split
  · exact grows_refl ω
  · exact grows_trans (encodeListWith_grows enc h xs ω) (push_data_grows _ _)

theorem push_array_into_grows {α : Type} (enc : OmniBuffer → α → OmniBuffer × List Nat)
    (h : GrowsEnc enc) (buf : List Nat) (ω : OmniBuffer) (xs : List α) :
    Grows ω (push_array_into enc buf ω xs).2.1 := by
  unfold push_array_into
  split
  · exact grows_refl ω
  · exact encodeListWith_grows enc h xs ω

theorem growsEnc_enum : GrowsEnc encodeEnumItem := fun ω _ => grows_refl ω

theorem growsEnc_str : GrowsEnc encodeStrItem := fun ω s => push_str_grows ω s

theorem growsEnc_lsource : GrowsEnc RawLSource.encode_one := by
  intro ω l
  exact grows_trans (push_str_grows ω l.text) (push_str_grows _ l.lang)

theorem growsEnc_gloss : GrowsEnc RawGloss.encode_one := fun ω g => push_str_grows ω g.text

theorem growsEnc_kanji : GrowsEnc RawKanjiElement.encode_one := by
  intro ω k
  exact grows_trans (push_str_grows ω k.keb)
    (push_array_grows encodeEnumItem growsEnc_enum _ k.ke_inf)

theorem growsEnc_reading : GrowsEnc RawReadingElement.encode_one := by
  intro ω r
  exact grows_trans (push_str_grows ω r.reb)
    (push_array_grows encodeEnumItem growsEnc_enum _ r.re_inf)

theorem growsEnc_sense : GrowsEnc RawSense.encode_one := by
  intro ω s
  rcases hp1 : push_array_into encodeStrItem [] ω s.stagk with ⟨buf1, ω1, o1⟩
  rcases hp2 : push_array_into encodeStrItem buf1 ω1 s.stagr with ⟨buf2, ω2, o2⟩
  rcases hp3 : push_array_into encodeEnumItem buf2 ω2 s.pos with ⟨buf3, ω3, o3⟩
  rcases hp4 : push_array_into encodeStrItem buf3 ω3 s.xref with ⟨buf4, ω4, o4⟩
  rcases hp5 : push_array_into encodeStrItem buf4 ω4 s.ant with ⟨buf5, ω5, o5⟩
  rcases hp6 : push_array_into encodeEnumItem buf5 ω5 s.field with ⟨buf6, ω6, o6⟩
  rcases hp7 : push_array_into encodeEnumItem buf6 ω6 s.misc with ⟨buf7, ω7, o7⟩
  rcases hp8 : push_array_into encodeStrItem buf7 ω7 s.s_inf with ⟨buf8, ω8, o8⟩
  rcases hp9 : push_array_into RawLSource.encode_one buf8 ω8 s.lsource with ⟨buf9, ω9, o9⟩
  rcases hp10 : push_array_into encodeEnumItem buf9 ω9 s.dial with ⟨buf10, ω10, o10⟩
  rcases hp11 : push_array_into RawGloss.encode_one buf10 ω10 s.gloss with ⟨buf11, ω11, o11⟩
  have h1 := push_array_into_grows encodeStrItem growsEnc_str [] ω s.stagk
  have h2 := push_array_into_grows encodeStrItem growsEnc_str buf1 ω1 s.stagr
  have h3 := push_array_into_grows encodeEnumItem growsEnc_enum buf2 ω2 s.pos
  have h4 := push_array_into_grows encodeStrItem growsEnc_str buf3 ω3 s.xref
  have h5 := push_array_into_grows encodeStrItem growsEnc_str buf4 ω4 s.ant
  have h6 := push_array_into_grows encodeEnumItem growsEnc_enum buf5 ω5 s.field
  have h7 := push_array_into_grows encodeEnumItem growsEnc_enum buf6 ω6 s.misc
  have h8 := push_array_into_grows encodeStrItem growsEnc_str buf7 ω7 s.s_inf
  have h9 := push_array_into_grows RawLSource.encode_one growsEnc_lsource buf8 ω8 s.lsource
  have h10 := push_array_into_grows encodeEnumItem growsEnc_enum buf9 ω9 s.dial
  have h11 := push_array_into_grows RawGloss.encode_one growsEnc_gloss buf10 ω10 s.gloss
  rw [hp1] at h1
  rw [hp2] at h2
  rw [hp3] at h3
  rw [hp4] at h4
  rw [hp5] at h5
  rw [hp6] at h6
  rw [hp7] at h7
  rw [hp8] at h8
  rw [hp9] at h9
  rw [hp10] at h10
  rw [hp11] at h11
  simp only at h1 h2 h3 h4 h5 h6 h7 h8 h9 h10 h11
  have hall : Grows ω ω11 :=
    grows_trans h1 (grows_trans h2 (grows_trans h3 (grows_trans h4 (grows_trans h5
      (grows_trans h6 (grows_trans h7 (grows_trans h8 (grows_trans h9
        (grows_trans h10 h11)))))))))
  simp only [RawSense.encode_one, hp1, hp2, hp3, hp4, hp5, hp6, hp7, hp8, hp9, hp10, hp11]
  exact grows_trans hall (push_data_grows ω11 buf11)

theorem growsEnc_entry : GrowsEnc RawEntry.encode_one := by
  intro ω e
  rcases hp1 : push_array_into RawKanjiElement.encode_one [] ω e.k_ele with ⟨buf1, ω1, o1⟩
  rcases hp2 : push_array_into RawReadingElement.encode_one buf1 ω1 e.r_ele with ⟨buf2, ω2, o2⟩
  rcases hp3 : push_array_into RawSense.encode_one buf2 ω2 e.sense with ⟨buf3, ω3, o3⟩
  have h1 := push_array_into_grows RawKanjiElement.encode_one growsEnc_kanji [] ω e.k_ele
  have h2 := push_array_into_grows RawReadingElement.encode_one growsEnc_reading buf1 ω1 e.r_ele
  have h3 := push_array_into_grows RawSense.encode_one growsEnc_sense buf2 ω2 e.sense
  rw [hp1] at h1
  rw [hp2] at h2
  rw [hp3] at h3
  simp only at h1 h2 h3
  simp only [RawEntry.encode_one, hp1, hp2, hp3]
  exact grows_trans h1 (grows_trans h2 (grows_trans h3 (push_data_grows ω3 buf3)))

/-! Behaviour of the visitor `process_entry` and of the overall fold. -/

theorem process_entry_offsets (ω : OmniBuffer) (e : RawEntry) :
    (process_entry ω e).entry_offsets = ω.entry_offsets
      ++ [((RawEntry.encode_one ω e).1.push_data (RawEntry.encode_one ω e).2).2.start] := by
  show ((RawEntry.encode_one ω e).1.push_data (RawEntry.encode_one ω e).2).1.entry_offsets
      ++ [((RawEntry.encode_one ω e).1.push_data (RawEntry.encode_one ω e).2).2.start]
    = ω.entry_offsets
      ++ [((RawEntry.encode_one ω e).1.push_data (RawEntry.encode_one ω e).2).2.start]
  rw [push_data_offs, keepsOffs_entry]

theorem process_entry_grows (ω : OmniBuffer) (e : RawEntry) : Grows ω (process_entry ω e) := by
  have h := grows_trans (growsEnc_entry ω e)
    (push_data_grows (RawEntry.encode_one ω e).1 (RawEntry.encode_one ω e).2)
  obtain ⟨⟨d, hd⟩, ⟨t, ht⟩⟩ := h
  exact ⟨⟨d, hd⟩, ⟨t, ht⟩⟩

theorem foldl_grows (es : List RawEntry) : ∀ ω : OmniBuffer,
    Grows ω (es.foldl process_entry ω) := by
  induction es with
  | nil => intro ω; exact grows_refl ω
  | cons e es ih =>
    intro ω
    exact grows_trans (process_entry_grows ω e) (ih (process_entry ω e))

theorem foldl_offsets_ext (es : List RawEntry) : ∀ ω : OmniBuffer,
    ∃ suff, (es.foldl process_entry ω).entry_offsets = ω.entry_offsets ++ suff := by
  induction es with
  | nil => intro ω; exact ⟨[], by simp⟩
  | cons e es ih =>
    intro ω
    obtain ⟨suff, hs⟩ := ih (process_entry ω e)
    refine ⟨[((RawEntry.encode_one ω e).1.push_data (RawEntry.encode_one ω e).2).2.start]
      ++ suff, ?_⟩
    show (es.foldl process_entry (process_entry ω e)).entry_offsets = _
    rw [hs, process_entry_offsets, List.append_assoc]

theorem get_q_append_cons (A B : List Nat) (b : Nat) : (A ++ b :: B).get? A.length = some b := by
  induction A with
  | nil => rfl
  | cons a A ih => simpa using ih

/-- Main fold invariant: after visiting `es` on top of `ω0`, one offset per
entry has been appended, and reading back the header at the i-th new offset
from any extension of the final pools decodes the i-th entry. -/
theorem fold_rt (cnt : EnumCounts) (hgl : cnt.gLang ≤ 16) (hgt : cnt.gType ≤ 16)
    (es : List RawEntry) :
    ∀ ω0 : OmniBuffer, (∀ e ∈ es, RawEntry.Valid cnt e) →
      (es.foldl process_entry ω0).entry_offsets.length
          = ω0.entry_offsets.length + es.length ∧
      ∀ ωf : OmniBuffer, Grows (es.foldl process_entry ω0) ωf →
        ωf.text.length < 2 ^ 28 →
        ∀ i, (hi : i < es.length) →
          ∃ off, (es.foldl process_entry ω0).entry_offsets.get? (ω0.entry_offsets.length + i)
              = some off ∧
            decodeEntryWords cnt ωf.data ωf.text (wordsAt ωf.data off 4)
              = some (RawEntry.toView (es.get ⟨i, hi⟩)) := by
  induction es with
  | nil =>
    intro ω0 _
    refine ⟨by simp, ?_⟩
    intro ωf _ _ i hi
    exact absurd hi (Nat.not_lt_zero i)
  | cons e es ih =>
    intro ω0 hval
    have hve : RawEntry.Valid cnt e := hval e (List.mem_cons_self e es)
    have hvs : ∀ x ∈ es, RawEntry.Valid cnt x := fun x hx => hval x (List.mem_cons_of_mem e hx)
    obtain ⟨ihlen, ihdec⟩ := ih (process_entry ω0 e) hvs
    have hoffs := process_entry_offsets ω0 e
    constructor
    · show (es.foldl process_entry (process_entry ω0 e)).entry_offsets.length = _
      rw [ihlen, hoffs]
      simp only [List.length_append, List.length_cons, List.length_nil]
      omega
    · intro ωf hgf hT i hi
      have hgf' : Grows (es.foldl process_entry (process_entry ω0 e)) ωf := hgf
      cases i with
      | zero =>
        refine ⟨((RawEntry.encode_one ω0 e).1.push_data (RawEntry.encode_one ω0 e).2).2.start,
          ?_, ?_⟩
        · obtain ⟨suff, hsuff⟩ := foldl_offsets_ext es (process_entry ω0 e)
          show (es.foldl process_entry (process_entry ω0 e)).entry_offsets.get? _ = _
          rw [hsuff, hoffs, List.append_assoc, Nat.add_zero]
          exact get_q_append_cons ω0.entry_offsets suff _
        · have hitem := entryRT ωf cnt hT hgl hgt
          obtain ⟨hlen4, _, hdec⟩ := hitem ω0 e hve
          have hg2 : Grows ((RawEntry.encode_one ω0 e).1.push_data
              (RawEntry.encode_one ω0 e).2).1 (process_entry ω0 e) :=
            ⟨⟨[], (List.append_nil _).symm⟩, ⟨[], (List.append_nil _).symm⟩⟩
          have hg3 : Grows (process_entry ω0 e)
              (es.foldl process_entry (process_entry ω0 e)) :=
            foldl_grows es (process_entry ω0 e)
          have hgpd : Grows ((RawEntry.encode_one ω0 e).1.push_data
              (RawEntry.encode_one ω0 e).2).1 ωf :=
            grows_trans hg2 (grows_trans hg3 hgf')
          have hgchain : Grows (RawEntry.encode_one ω0 e).1 ωf :=
            grows_trans (push_data_grows (RawEntry.encode_one ω0 e).1
              (RawEntry.encode_one ω0 e).2) hgpd
          obtain ⟨_, _, hsl⟩ := push_data_rt (RawEntry.encode_one ω0 e).1
            (RawEntry.encode_one ω0 e).2
          have hslf := hsl ωf hgpd
          have hwoff := wordsAt_of_sliceIs hslf
          rw [hlen4] at hwoff
          rw [hwoff, hdec hgchain]
          rfl
      | succ j =>
        have hj : j < es.length := by
          simpa using hi
        obtain ⟨off, hget, hdecj⟩ := ihdec ωf hgf' hT j hj
        refine ⟨off, ?_, ?_⟩
        · have hlen1 : (process_entry ω0 e).entry_offsets.length
              = ω0.entry_offsets.length + 1 := by
            rw [hoffs]
            simp
          show (es.foldl process_entry (process_entry ω0 e)).entry_offsets.get? _ = _
          rw [show ω0.entry_offsets.length + (j + 1)
            = (process_entry ω0 e).entry_offsets.length + j from by omega]
          exact hget
        · exact hdecj

instance decValidKanji (cnt : EnumCounts) (k : RawKanjiElement) :
    Decidable (RawKanjiElement.Valid cnt k) := by
  unfold RawKanjiElement.Valid
  infer_instance

instance decValidReading (cnt : EnumCounts) (r : RawReadingElement) :
    Decidable (RawReadingElement.Valid cnt r) := by
  unfold RawReadingElement.Valid
  infer_instance

instance decValidSense (cnt : EnumCounts) (s : RawSense) :
    Decidable (RawSense.Valid cnt s) := by
  unfold RawSense.Valid
  infer_instance

instance decValidEntry (cnt : EnumCounts) (e : RawEntry) :
    Decidable (RawEntry.Valid cnt e) := by
  unfold RawEntry.Valid
  infer_instance

theorem numEnabled_le_length (vs : List EnumVariant) : numEnabled vs ≤ vs.length :=
  List.countP_le_length _

theorem countsOf_gLang_le (tc : TransConfig) (arch : Bool) : (countsOf tc arch).gLang ≤ 16 := by
  have h1 : (countsOf tc arch).gLang = numEnabled (glossLanguageVariants tc) := rfl
  have h2 := numEnabled_le_length (glossLanguageVariants tc)
  have h3 : (glossLanguageVariants tc).length = 9 := rfl
  omega

theorem countsOf_gType_le (tc : TransConfig) (arch : Bool) : (countsOf tc arch).gType ≤ 16 := by
  have h1 : (countsOf tc arch).gType = 5 := rfl
  omega

/-- The whole-build round trip, in the form shared by the ordering and
round-trip results: the offset table has one slot per input entry, and reading
slot `i` back gives the view of input entry `i`. -/
theorem encode_get_entry (tc : TransConfig) (arch : Bool) (es : List RawEntry)
    (hval : ∀ e ∈ es, RawEntry.Valid (countsOf tc arch) e)
    (htext : (encodeEntries es).text.length < 2 ^ 28) :
    entry_count (encodeEntries es) = es.length ∧
    ∀ i, (hi : i < es.length) →
      get_entry (countsOf tc arch) (encodeEntries es) i
        = some (RawEntry.toView (es.get ⟨i, hi⟩)) := by
  obtain ⟨hlen, hdec⟩ := fold_rt (countsOf tc arch) (countsOf_gLang_le tc arch)
    (countsOf_gType_le tc arch) es ⟨[], [], []⟩ hval
  constructor
  · show (es.foldl process_entry ⟨[], [], []⟩).entry_offsets.length = es.length
    rw [hlen]
    simp
  · intro i hi
    obtain ⟨off, hget, hdw⟩ := hdec (encodeEntries es) (grows_refl _) htext i hi
    have hget' : (encodeEntries es).entry_offsets.get? (0 + i) = some off := hget
    rw [Nat.zero_add] at hget'
    have hge : get_entry (countsOf tc arch) (encodeEntries es) i
        = decodeEntryWords (countsOf tc arch) (encodeEntries es).data (encodeEntries es).text
            (wordsAt (encodeEntries es).data off 4) := by
      unfold get_entry
      rw [hget']
    rw [hge]
    exact hdw

/-! Concrete entries for the round-trip and ordering witnesses. -/

def encEntryA : RawEntry :=
  ⟨1000001,
   [⟨"asa", [0], ⟨.Absent, .Absent, .Absent, .Absent, 0⟩⟩],
   [⟨"kaa", false, [], [1], ⟨.Primary, .Absent, .Absent, .Absent, 12⟩⟩],
   [⟨[], [], [0], [], [], [], [], [], [⟨"maman", "fre", false, false⟩], [0], [⟨"mom", 0, 0⟩]⟩]⟩

def encEntryB : RawEntry :=
  ⟨1000002, [],
   [⟨"ii", false, [], [], ⟨.Absent, .Absent, .Absent, .Absent, 0⟩⟩],
   [⟨[], [], [], [], [], [], [], [], [], [], [⟨"good", 0, 1⟩]⟩]⟩

/-- **C1**: round trip.  For any input list of normalized entries that fits the
format's size ceilings (`RawEntry.Valid`) and any build configuration, the
encoder's three artifacts decode back, entry by entry via `get_entry`, to
exactly the views of the input entries: sequence number, kanji/reading elements
with text, priority and info markers, and every sense with all eleven child
lists in order. -/
theorem c1_roundtrip (tc : TransConfig) (arch : Bool) (es : List RawEntry)
    (hval : ∀ e ∈ es, RawEntry.Valid (countsOf tc arch) e)
    (htext : (encodeEntries es).text.length < 2 ^ 28) :
    entry_count (encodeEntries es) = es.length ∧
    ∀ i, (hi : i < es.length) →
      get_entry (countsOf tc arch) (encodeEntries es) i
        = some (RawEntry.toView (es.get ⟨i, hi⟩)) :=
  encode_get_entry tc arch es hval htext

/-- Witness for C1 at a concrete two-entry list under the default build. -/
theorem c1_roundtrip_witness :
    (∀ e ∈ [encEntryA, encEntryB], RawEntry.Valid (countsOf defaultTrans false) e) ∧
    (encodeEntries [encEntryA, encEntryB]).text.length < 2 ^ 28 ∧
    entry_count (encodeEntries [encEntryA, encEntryB]) = 2 ∧
    get_entry (countsOf defaultTrans false) (encodeEntries [encEntryA, encEntryB]) 0
      = some (RawEntry.toView encEntryA) := by
  refine ⟨by decide, by decide, ?_, ?_⟩
  · exact (c1_roundtrip defaultTrans false [encEntryA, encEntryB] (by decide) (by decide)).1
  · exact (c1_roundtrip defaultTrans false [encEntryA, encEntryB] (by decide) (by decide)).2
      0 (by decide)

/-- **C5**: ordering.  For a valid input list with strictly ascending sequence
numbers, the offset table lists the entries in input order (slot `i` decodes to
input entry `i`, whose `number` is its `ent_seq`), and consecutive decoded
entries have strictly ascending `number` fields. -/
theorem c5_ordering (tc : TransConfig) (arch : Bool) (es : List RawEntry)
    (hval : ∀ e ∈ es, RawEntry.Valid (countsOf tc arch) e)
    (htext : (encodeEntries es).text.length < 2 ^ 28)
    (hasc : ∀ i, (h : i + 1 < es.length) →
      (es.get ⟨i, Nat.lt_of_succ_lt h⟩).ent_seq < (es.get ⟨i + 1, h⟩).ent_seq) :
    entry_count (encodeEntries es) = es.length ∧
    (∀ i, (hi : i < es.length) →
      ∃ a, get_entry (countsOf tc arch) (encodeEntries es) i = some a ∧
        a.number = (es.get ⟨i, hi⟩).ent_seq) ∧
    (∀ i, i + 1 < entry_count (encodeEntries es) →
      ∃ a b, get_entry (countsOf tc arch) (encodeEntries es) i = some a ∧
        get_entry (countsOf tc arch) (encodeEntries es) (i + 1) = some b ∧
        a.number < b.number) := by
  obtain ⟨hlen, hdec⟩ := encode_get_entry tc arch es hval htext
  refine ⟨hlen, ?_, ?_⟩
  · intro i hi
    exact ⟨RawEntry.toView (es.get ⟨i, hi⟩), hdec i hi, rfl⟩
  · intro i h
    rw [hlen] at h
    have hi : i < es.length := Nat.lt_of_succ_lt h
    refine ⟨RawEntry.toView (es.get ⟨i, hi⟩), RawEntry.toView (es.get ⟨i + 1, h⟩),
      hdec i hi, hdec (i + 1) h, ?_⟩
    exact hasc i h

/-- Witness for C5 at the same concrete two-entry list. -/
theorem c5_ordering_witness :
    (∀ e ∈ [encEntryA, encEntryB], RawEntry.Valid (countsOf defaultTrans false) e) ∧
    encEntryA.ent_seq < encEntryB.ent_seq ∧
    ∃ a b, get_entry (countsOf defaultTrans false) (encodeEntries [encEntryA, encEntryB]) 0
        = some a ∧
      get_entry (countsOf defaultTrans false) (encodeEntries [encEntryA, encEntryB]) (0 + 1)
        = some b ∧
      a.number < b.number := by
  refine ⟨by decide, by decide, ?_⟩
  exact (c5_ordering defaultTrans false [encEntryA, encEntryB] (by decide) (by decide)
    (by
      intro i h
      have hi0 : i = 0 := by
        simp only [List.length_cons, List.length_nil] at h
        omega
      subst hi0
      exact (by decide : encEntryA.ent_seq < encEntryB.ent_seq))).2.2 0 (by decide)

/-- **C2** is false as stated: the ten 8-bit sense split fields do *not* fit in
two words of the 5-word sense record.  The decoder's split recovery reads a
*third* packed word (`data[4]`), whose bytes change the 9th and 10th split
points, and the encoder stores `o9 + (o10 << 8)` as the record's fifth word. -/
theorem c2_offset_coalescing_counterexample :
    senseMids 0 0 0 256 ≠ senseMids 0 0 0 0 ∧
    (RawSense.encode_one (⟨[], [], []⟩ : OmniBuffer)
        ⟨[], [], [], [], [], [], [], [], [⟨"maman", "fre", false, false⟩], [0], []⟩).2.get? 4
      = some (4 + 5 * 256) := by
  constructor
  · decide
  · rfl

/-- **C2** (amended): an Entry's 3 child arrays are coalesced with their 2
split points packed as two 16-bit halves of one word, and a Sense's 11 child
arrays are coalesced with their 10 split points packed as 8-bit fields spread
over *three* words of the record (4 + 4 + 2); the decoder recovers every split
point exactly from those packed words. -/
theorem c2_offset_coalescing_amended :
    (∀ o1 o2 : Nat, o1 < 65536 → o2 < 65536 →
      entrySplitLow (o1 + (o2 <<< 16)) = o1 ∧ entrySplitHigh (o1 + (o2 <<< 16)) = o2) ∧
    (∀ st o1 o2 o3 o4 o5 o6 o7 o8 o9 o10 : Nat,
      o1 < 256 → o2 < 256 → o3 < 256 → o4 < 256 → o5 < 256 → o6 < 256 → o7 < 256 →
      o8 < 256 → o9 < 256 → o10 < 256 →
      senseMids st (o1 + (o2 <<< 8) + (o3 <<< 16) + (o4 <<< 24))
          (o5 + (o6 <<< 8) + (o7 <<< 16) + (o8 <<< 24)) (o9 + (o10 <<< 8))
        = [st + o1, st + o2, st + o3, st + o4, st + o5, st + o6, st + o7, st + o8,
           st + o9, st + o10]) :=
  ⟨fun o1 o2 h1 h2 => entrySplit_packed o1 o2 h1 h2,
   fun st o1 o2 o3 o4 o5 o6 o7 o8 o9 o10 h1 h2 h3 h4 h5 h6 h7 h8 h9 h10 =>
     senseMids_packed st o1 o2 o3 o4 o5 o6 o7 o8 o9 o10 h1 h2 h3 h4 h5 h6 h7 h8 h9 h10⟩

/-- Witness for the amended C2 at concrete split offsets. -/
theorem c2_offset_coalescing_amended_witness :
    (entrySplitLow (7 + (9 <<< 16)) = 7 ∧ entrySplitHigh (7 + (9 <<< 16)) = 9) ∧
    senseMids 100 (1 + (2 <<< 8) + (3 <<< 16) + (4 <<< 24))
        (5 + (6 <<< 8) + (7 <<< 16) + (8 <<< 24)) (9 + (10 <<< 8))
      = [101, 102, 103, 104, 105, 106, 107, 108, 109, 110] :=
  ⟨c2_offset_coalescing_amended.1 7 9 (by decide) (by decide),
   c2_offset_coalescing_amended.2 100 1 2 3 4 5 6 7 8 9 10 (by decide) (by decide)
     (by decide) (by decide) (by decide) (by decide) (by decide) (by decide) (by decide)
     (by decide)⟩

end JM
